import Mathlib

/-!
Verification of the deepstream.io realtime-server core against its
natural-language specification.

The development shallowly embeds the JavaScript sources:

* `src/utils/subscription-registry.js` (src/unnamed/part_000) — the
  `SubscriptionRegistry` with its batched broadcast loop;
* the `RecordHandler` (with `_broadcast`, `isSameOrNewer`, `splitRev`)
  embedded in `src/README.md`;
* the cluster `ListenerRegistry` embedded in `src/src/record/record-handler.js`;
* an `RpcHandler` and a `RecordCache` modelled from the spec, since their
  implementation files are not part of the source tree (only the RPC tests
  and the cache call sites are).

JavaScript strings are embedded as `List Char` (`Str`), JS numbers that the
code obtains from `parseInt` as `Option Int` (`none` playing NaN; the
embedding is exact for integers of magnitude at most 2^53, which covers
every value the comparisons here are applied to).
-/

namespace Deepstream

/-- JavaScript strings, embedded as lists of characters. -/
abbrev Str := List Char

/-- The deepstream message separator `C.MESSAGE_SEPERATOR` (ASCII 30). -/
def msgSep : Char := Char.ofNat 30

/-- The deepstream message part separator (ASCII 31). -/
def partSep : Char := Char.ofNat 31

/-! ### Association-list helpers

JS `Map` objects are embedded as association lists in insertion order:
`set` of a present key updates in place, `set` of an absent key appends,
`delete` removes the unique entry.  -/

/-- Lookup in an association list (JS `Map.prototype.get`). -/
def alookup {α β : Type} [DecidableEq α] : List (α × β) → α → Option β
  | [], _ => none
  | (k, v) :: rest, key => if k = key then some v else alookup rest key

/-- Update-or-append in an association list (JS `Map.prototype.set`). -/
def aset {α β : Type} [DecidableEq α] : List (α × β) → α → β → List (α × β)
  | [], key, v => [(key, v)]
  | (k, w) :: rest, key, v =>
      if k = key then (k, v) :: rest else (k, w) :: aset rest key v

/-- Key removal in an association list (JS `Map.prototype.delete`). -/
def aerase {α β : Type} [DecidableEq α] : List (α × β) → α → List (α × β)
  | [], _ => []
  | (k, v) :: rest, key => if k = key then rest else (k, v) :: aerase rest key

/-- JS `Set.prototype.add`: append if absent (insertion order preserved). -/
def sadd {α : Type} [DecidableEq α] (l : List α) (x : α) : List α :=
  if x ∈ l then l else l ++ [x]

/-! ### JS number and string primitives used by the record handler -/

/-- `Number.MAX_SAFE_INTEGER`, `2^53 - 1`. -/
def MAX_SAFE_INTEGER : Int := 9007199254740991

/-- JS numbers as produced by `parseInt`: `none` is `NaN`. -/
abbrev JsNum := Option Int

/-- JS `a > b` on numbers: false whenever either side is `NaN`. -/
def jsGt : JsNum → JsNum → Bool
  | some a, some b => a > b
  | _, _ => false

/-- JS `a < b` on numbers: false whenever either side is `NaN`. -/
def jsLt : JsNum → JsNum → Bool
  | some a, some b => a < b
  | _, _ => false

/-- JS `a === b` on numbers: false whenever either side is `NaN`. -/
def jsEqNum : JsNum → JsNum → Bool
  | some a, some b => a = b
  | _, _ => false

/-- JS `a !== b` with `b` a plain integer: `NaN !== b` is true. -/
def jsNeNum (a : JsNum) (b : Int) : Bool :=
  match a with
  | some v => v ≠ b
  | none => true

/-- JS string `<`: lexicographic comparison by code units. -/
def strLt : Str → Str → Bool
  | [], [] => false
  | [], _ :: _ => true
  | _ :: _, [] => false
  | a :: as, b :: bs => if a < b then true else if b < a then false else strLt as bs

/-- JS string `>=`: the string order is total, so `a >= b` is `¬ (a < b)`. -/
def strGe (a b : Str) : Bool := ! strLt a b

/-- Numeric value of a nonempty digit string. -/
def digitsVal (ds : Str) : Nat :=
  ds.foldl (fun acc c => acc * 10 + (c.toNat - 48)) 0

/-- Decimal digit test. -/
def isDigit (c : Char) : Bool := 48 ≤ c.toNat ∧ c.toNat ≤ 57

/-- JS whitespace test (the forms relevant to `parseInt` trimming). -/
def isJsWs (c : Char) : Bool :=
  c = ' ' ∨ c = Char.ofNat 9 ∨ c = Char.ofNat 10 ∨ c = Char.ofNat 13

/-- JS `parseInt(s, 10)`: trim whitespace, take an optional sign and the
longest digit run; `NaN` (`none`) when no digit is found. -/
def parseIntDec (s : Str) : JsNum :=
  let s1 := s.dropWhile isJsWs
  let signAndRest : Int × Str :=
    match s1 with
    | '-' :: r => (-1, r)
    | '+' :: r => (1, r)
    | _ => (1, s1)
  let ds := signAndRest.2.takeWhile isDigit
  if ds = [] then none else some (signAndRest.1 * (digitsVal ds : Int))

/-- JS `String.prototype.indexOf` for a single character: first index or -1. -/
def jsIndexOf (s : Str) (c : Char) : Int :=
  match s.findIdx? (· = c) with
  | some i => (i : Int)
  | none => -1

/-- Clamp a JS slice index into `[0, len]`, resolving negative indices
from the end of the string. -/
def jsSliceIdx (len : Nat) (x : Int) : Nat :=
  if x < 0 then (max (len + x) 0).toNat else min x.toNat len

/-- JS `String.prototype.slice(start, end)`. -/
def jsSlice (s : Str) (start : Int) (stop : Option Int) : Str :=
  let a := jsSliceIdx s.length start
  let b := match stop with
    | none => s.length
    | some e => jsSliceIdx s.length e
  if a < b then (s.drop a).take (b - a) else []

/-- JS `String.prototype.substring(a, b)` for nonnegative arguments:
clamp both ends to the length and swap them when out of order. -/
def jsSubstring (s : Str) (a b : Nat) : Str :=
  let x := min a s.length
  let y := min b s.length
  let lo := min x y
  let hi := max x y
  (s.drop lo).take (hi - lo)

/-! ### Version parsing and comparison (`record-handler.js`)

```js
function splitRev (s) {
  const i = s.indexOf(`-`)
  const ver = s.slice(0, i)
  return [ ver === 'INF' ? Number.MAX_SAFE_INTEGER : parseInt(ver, 10), s.slice(i + 1) ]
}
```
-/

/-- Embedding of `splitRev`: numeric part (NaN as `none`) and tag. -/
def splitRev (s : Str) : JsNum × Str :=
  let i := jsIndexOf s '-'
  let ver := jsSlice s 0 (some i)
  (if ver = [ 'I', 'N', 'F' ] then some MAX_SAFE_INTEGER else parseIntDec ver,
   jsSlice s (i + 1) none)

/-- The 14-zero default tag used by `isSameOrNewer` for absent versions. -/
def zeros14 : Str := List.replicate 14 '0'

/-- Version arguments of `isSameOrNewer`: `none` embeds `undefined`,
`some []` the empty string; both are falsy in `a ? splitRev(a) : …`. -/
def revOf (a : Option Str) : JsNum × Str :=
  match a with
  | none => (some 0, zeros14)
  | some [] => (some 0, zeros14)
  | some s => splitRev s

/-- Embedding of `isSameOrNewer` from `record-handler.js`:

```js
function isSameOrNewer (a, b) {
  const [ av, ar ] = a ? splitRev(a) : [ 0, '00000000000000' ]
  const [ bv, br ] = b ? splitRev(b) : [ 0, '00000000000000' ]
  return bv !== Number.MAX_SAFE_INTEGER && (av > bv || (av === bv && ar >= br))
}
``` -/
def isSameOrNewer (a b : Option Str) : Bool :=
  let av := (revOf a).1
  let ar := (revOf a).2
  let bv := (revOf b).1
  let br := (revOf b).2
  jsNeNum bv MAX_SAFE_INTEGER && (jsGt av bv || (jsEqNum av bv && strGe ar br))

/-! ### SubscriptionRegistry (`src/utils/subscription-registry.js`)

The registry keeps, per name, a `Subscription` holding the subscribed
sockets (a JS `Set`, insertion ordered), the shared outbound buffer for the
current broadcast tick, and the per-sender gap lists; it keeps the reverse
index `_names : socket → Set name`, the `_pending` set of names whose
subscription has buffered data, and — standing in for the attached one-shot
`close` handlers — the set of sockets whose close hook is registered.
Sockets are identified by `Nat`. -/

structure Subscription where
  sharedMessages : Str
  uniqueSenders : List (Nat × List Nat)
  sockets : List Nat
deriving DecidableEq, Repr

/-- The fresh subscription object created by `subscribe`. -/
def emptySub : Subscription := ⟨[], [], []⟩

structure Registry where
  subscriptions : List (Str × Subscription)
  names : List (Nat × List Str)
  pending : List Str
  closeListeners : List Nat
deriving DecidableEq, Repr

/-- The registry at server start. -/
def emptyRegistry : Registry := ⟨[], [], [], []⟩

/-- Socket set currently stored for a name (`getSubscribers`). -/
def socketsOf (r : Registry) (name : Str) : List Nat :=
  ((alookup r.subscriptions name).map Subscription.sockets).getD []

/-- Name set currently stored for a socket in the reverse index. -/
def namesOf (r : Registry) (socket : Nat) : List Str :=
  (alookup r.names socket).getD []

inductive SubResult
  | added (count : Nat)
  | duplicate
deriving DecidableEq, Repr

/-- Embedding of `SubscriptionRegistry.subscribe`: a repeated subscription
signals `MULTIPLE_SUBSCRIPTIONS` (`duplicate`) and changes nothing;
otherwise the socket is appended to the subscription (creating it when
absent), the close hook is attached if missing, the name is added to the
socket's reverse-index set, and the listener is notified with the new
socket count. -/
def Registry.subscribe (r : Registry) (name : Str) (socket : Nat) :
    Registry × SubResult :=
  let sub := (alookup r.subscriptions name).getD emptySub
  if socket ∈ sub.sockets then (r, SubResult.duplicate)
  else
    let sub1 : Subscription := { sub with sockets := sub.sockets ++ [socket] }
    ({ subscriptions := aset r.subscriptions name sub1
       names := aset r.names socket (sadd (namesOf r socket) name)
       pending := r.pending
       closeListeners := sadd r.closeListeners socket },
     SubResult.added sub1.sockets.length)

inductive UnsubResult
  | removed (count : Nat)
  | notSubscribed
deriving DecidableEq, Repr

/-- Embedding of `SubscriptionRegistry.unsubscribe`: a socket that is not
subscribed signals `NOT_SUBSCRIBED` and changes nothing; otherwise the
socket is removed, the subscription (and its pending mark) is deleted when
its socket set empties — else only the socket's gap record is dropped —
the name is removed from the reverse index, and on the socket's last
subscription the index entry and the close hook are detached. -/
def Registry.unsubscribe (r : Registry) (name : Str) (socket : Nat) :
    Registry × UnsubResult :=
  match alookup r.subscriptions name with
  | none => (r, UnsubResult.notSubscribed)
  | some sub =>
    if socket ∈ sub.sockets then
      let sockets1 := sub.sockets.erase socket
      let subscriptions1 :=
        if sockets1 = [] then aerase r.subscriptions name
        else aset r.subscriptions name
          { sub with sockets := sockets1,
                     uniqueSenders := aerase sub.uniqueSenders socket }
      let pending1 := if sockets1 = [] then r.pending.erase name else r.pending
      let ns1 := (namesOf r socket).erase name
      ({ subscriptions := subscriptions1
         names := if ns1 = [] then aerase r.names socket else aset r.names socket ns1
         pending := pending1
         closeListeners :=
           if ns1 = [] then r.closeListeners.erase socket else r.closeListeners },
       UnsubResult.removed sockets1.length)
    else (r, UnsubResult.notSubscribed)

/-- Append the message separator unless the frame already ends with it. -/
def appendSep (msg : Str) : Str :=
  if msg.getLast? = some msgSep then msg else msg ++ [msgSep]

/-- Buffering step of `sendToSubscribers`: append the separator-terminated
frame to the shared buffer and, when a sender is given, push the appended
`[start, stop]` byte range onto its gap list. -/
def bufferFrame (sub : Subscription) (msg : Str) (sender : Option Nat) :
    Subscription :=
  let m := appendSep msg
  let start := sub.sharedMessages.length
  let shared1 := sub.sharedMessages ++ m
  let stop := shared1.length
  match sender with
  | none => { sub with sharedMessages := shared1 }
  | some s =>
    { sub with
        sharedMessages := shared1,
        uniqueSenders :=
          aset sub.uniqueSenders s
            (((alookup sub.uniqueSenders s).getD []) ++ [start, stop]) }

/-- Embedding of `SubscriptionRegistry.sendToSubscribers`: an empty frame
or an unknown name is ignored; otherwise the separator-terminated frame is
appended to the shared buffer, the subscription is marked pending, and when
a sender is given the appended byte range is recorded in its gap list. -/
def Registry.sendToSubscribers (r : Registry) (name : Str) (msg : Str)
    (sender : Option Nat) : Registry :=
  if msg = [] then r
  else
    match alookup r.subscriptions name with
    | none => r
    | some sub =>
      { r with subscriptions := aset r.subscriptions name (bufferFrame sub msg sender),
               pending := sadd r.pending name }

/-- Tail of the gap-splicing loop of `_onBroadcastTimeout`: `lastStop` is
the end of the previous gap; each further `[start, stop]` pair contributes
`substring(lastStop, start)`.  A trailing odd element mirrors the JS
behaviour where the final `lastStop` reads past the array (`undefined`,
coerced to 0 by `substring`). -/
def spliceGo (shared : Str) : Nat → List Nat → Str
  | lastStop, [] => jsSubstring shared lastStop shared.length
  | lastStop, a :: b :: rest => jsSubstring shared lastStop a ++ spliceGo shared b rest
  | lastStop, [a] => jsSubstring shared lastStop a ++ jsSubstring shared 0 shared.length

/-- The per-sender message built by `_onBroadcastTimeout`: the shared
buffer with the sender's recorded gaps spliced out.  The degenerate
zero/one element cases mirror the JS `undefined` index coercions; the
registry only ever stores nonempty even-length gap lists. -/
def spliceMessage (shared : Str) (gaps : List Nat) : Str :=
  match gaps with
  | a :: b :: rest => jsSubstring shared 0 a ++ spliceGo shared b rest
  | [a] => jsSubstring shared 0 a ++ jsSubstring shared 0 shared.length
  | [] => (jsSubstring shared 0 shared.length) ++ jsSubstring shared 0 shared.length

/-- One delivered frame of a broadcast tick: which subscription flushed it,
the receiving socket, and the payload. -/
structure Delivery where
  name : Str
  socket : Nat
  payload : Str
deriving DecidableEq, Repr

/-- Deliveries of one pending subscription during a tick: every recorded
unique sender receives the spliced buffer, every other subscribed socket
the shared (prepared) buffer. -/
def subSends (name : Str) (sub : Subscription) : List Delivery :=
  (sub.uniqueSenders.map fun sg =>
    Delivery.mk name sg.1 (spliceMessage sub.sharedMessages sg.2))
  ++ ((sub.sockets.filter fun s => (alookup sub.uniqueSenders s).isNone).map fun s =>
        Delivery.mk name s sub.sharedMessages)

/-- Reset of a subscription at the end of a tick. -/
def clearSub (sub : Subscription) : Subscription :=
  { sub with sharedMessages := [], uniqueSenders := [] }

/-- Embedding of `SubscriptionRegistry._onBroadcastTimeout`: flush every
pending subscription, then clear its buffer and gap map, and empty the
pending set. -/
def Registry.onBroadcastTimeout (r : Registry) : Registry × List Delivery :=
  let sends := r.pending.flatMap fun n =>
    match alookup r.subscriptions n with
    | some sub => subSends n sub
    | none => []
  ({ r with
      subscriptions := r.subscriptions.map fun p =>
        if p.1 ∈ r.pending then (p.1, clearSub p.2) else p,
      pending := [] },
   sends)

/-- Iterated unsubscription used by the close handler. -/
def unsubscribeList (socket : Nat) : Registry → List Str → Registry
  | r, [] => r
  | r, n :: rest => unsubscribeList socket (r.unsubscribe n socket).1 rest

/-- Embedding of `SubscriptionRegistry._onSocketClose`: silently
unsubscribe the socket from every name in its reverse-index set. -/
def Registry.onSocketClose (r : Registry) (socket : Nat) : Registry :=
  unsubscribeList socket r (namesOf r socket)

/-! Operations on the registry and traces of them, used for the temporal
claims about buffered frames. -/

inductive ROp
  | sub (name : Str) (socket : Nat)
  | unsub (name : Str) (socket : Nat)
  | send (name : Str) (msg : Str) (sender : Option Nat)
  | close (socket : Nat)
  | tick
deriving DecidableEq, Repr

/-- One registry entry point together with the frames it delivers. -/
def rstep (r : Registry) : ROp → Registry × List Delivery
  | ROp.sub n s => ((r.subscribe n s).1, [])
  | ROp.unsub n s => ((r.unsubscribe n s).1, [])
  | ROp.send n m sd => (r.sendToSubscribers n m sd, [])
  | ROp.close s => (r.onSocketClose s, [])
  | ROp.tick => r.onBroadcastTimeout

/-- Run a list of registry operations, collecting all deliveries. -/
def rrun (r : Registry) : List ROp → Registry × List Delivery
  | [] => (r, [])
  | op :: rest =>
    let x := rstep r op
    let y := rrun x.1 rest
    (y.1, x.2 ++ y.2)

/-! ### Registry well-formedness

`RegInv` is the structural invariant of the registry maintained by
`subscribe`, `unsubscribe` and the close handler: the two indices are
duplicate-free maps, a socket sits in the set stored for a name exactly
when the name sits in the set stored for the socket, empty sets are
removed from both maps (with the pending mark and the close hook cleaned
up alongside), and the close hooks are attached exactly to the sockets
present in the reverse index. -/

structure RegInv (r : Registry) : Prop where
  subsKeysNodup : (r.subscriptions.map Prod.fst).Nodup
  namesKeysNodup : (r.names.map Prod.fst).Nodup
  socketsNodup : ∀ p ∈ r.subscriptions, p.2.sockets.Nodup
  socketsNonempty : ∀ p ∈ r.subscriptions, p.2.sockets ≠ []
  nameListsNodup : ∀ q ∈ r.names, q.2.Nodup
  nameListsNonempty : ∀ q ∈ r.names, q.2 ≠ []
  fwd : ∀ p ∈ r.subscriptions, ∀ s ∈ p.2.sockets, p.1 ∈ namesOf r s
  bwd : ∀ q ∈ r.names, ∀ n ∈ q.2, q.1 ∈ socketsOf r n
  pendingNodup : r.pending.Nodup
  pendingSub : ∀ n ∈ r.pending, n ∈ r.subscriptions.map Prod.fst
  closeNodup : r.closeListeners.Nodup
  closeFwd : ∀ s ∈ r.closeListeners, s ∈ r.names.map Prod.fst
  closeBwd : ∀ q ∈ r.names, q.1 ∈ r.closeListeners

/-- Well-formedness of one gap list against the shared-buffer length:
pairs `[start, stop[` chained in nondecreasing order below the length. -/
def gapsOk (len : Nat) : Nat → List Nat → Bool
  | _, [] => true
  | lo, a :: b :: rest => lo ≤ a && a ≤ b && b ≤ len && gapsOk len b rest
  | _, [_] => false

/-- Well-formedness of a subscription: every recorded gap list is nonempty
(the registry always pushes a `[start, stop]` pair on creation) and chains
inside the shared buffer. -/
def SubWF (sub : Subscription) : Prop :=
  ∀ sg ∈ sub.uniqueSenders, sg.2 ≠ [] ∧ gapsOk sub.sharedMessages.length 0 sg.2 = true

instance decidableSubWF (sub : Subscription) : Decidable (SubWF sub) :=
  inferInstanceAs (Decidable (∀ sg ∈ sub.uniqueSenders,
    sg.2 ≠ [] ∧ gapsOk sub.sharedMessages.length 0 sg.2 = true))

/-- Full registry well-formedness: the structural invariant plus gap
well-formedness of every subscription. -/
def RegWF (r : Registry) : Prop :=
  RegInv r ∧ ∀ p ∈ r.subscriptions, SubWF p.2

/-- Specification-side reading of gap splicing: the concatenation of the
segments of `shared` not covered by the `[start, stop[` ranges, read off
with plain `drop`/`take`. -/
def withoutRanges (shared : Str) : Nat → List Nat → Str
  | lo, [] => shared.drop lo
  | lo, a :: b :: rest => ((shared.drop lo).take (a - lo)) ++ withoutRanges shared b rest
  | _, [_] => []

/-- Specification-side deliveries of one subscription in a tick, with the
per-sender payload described as the buffer minus the recorded ranges. -/
def subSendsSpec (name : Str) (sub : Subscription) : List Delivery :=
  (sub.uniqueSenders.map fun sg =>
    Delivery.mk name sg.1 (withoutRanges sub.sharedMessages 0 sg.2))
  ++ ((sub.sockets.filter fun s => (alookup sub.uniqueSenders s).isNone).map fun s =>
        Delivery.mk name s sub.sharedMessages)

/-- Specification-side deliveries of a whole tick. -/
def tickSendsSpec (r : Registry) : List Delivery :=
  r.pending.flatMap fun n =>
    match alookup r.subscriptions n with
    | some sub => subSendsSpec n sub
    | none => []

/-- A registry state is free of the marker character when no shared buffer
contains it. -/
def stateCharFree (c : Char) (r : Registry) : Prop :=
  ∀ p ∈ r.subscriptions, c ∉ p.2.sharedMessages

/-- An operation avoids the marker character when any frame it feeds into
the registry is free of it. -/
def opAvoids (c : Char) : ROp → Bool
  | ROp.send _ m _ => ! (decide (c ∈ m))
  | _ => true

/-! ### RecordCache

Modelled from the spec: the file `src/record/record-cache.js` is not part
of the source tree — only its call sites in the record handler are.  Per
§4.2 of the spec it is a size-bounded LRU with pinning: `lock`/`unlock`
pin and unpin a name, eviction removes least-recently-used unpinned
entries, and when every candidate is pinned the cache grows beyond its
target.  `get` of an absent name behaves as the empty record (no version,
no raw message), which is what every call site expects. -/

structure CacheEntry where
  version : Str
  message : Str
deriving DecidableEq, Repr

structure RecordCache where
  max : Nat
  entries : List (Str × CacheEntry)
  locked : List Str
deriving DecidableEq, Repr

/-- Remove the least-recently-used unpinned entry (the last unpinned one,
entries being kept most-recent-first); `none` when all are pinned. -/
def removeLastUnpinned (locked : List Str) :
    List (Str × CacheEntry) → Option (List (Str × CacheEntry))
  | [] => none
  | e :: rest =>
    match removeLastUnpinned locked rest with
    | some rest1 => some (e :: rest1)
    | none => if e.1 ∈ locked then none else some rest

/-- Eviction loop: drop unpinned LRU entries until the size bound is met
or only pinned entries remain.  The fuel is the list length. -/
def evictLoop (locked : List Str) (maxSize : Nat) :
    Nat → List (Str × CacheEntry) → List (Str × CacheEntry)
  | 0, es => es
  | fuel + 1, es =>
    if es.length ≤ maxSize then es
    else
      match removeLastUnpinned locked es with
      | none => es
      | some es1 => evictLoop locked maxSize fuel es1

/-- Cache read. -/
def RecordCache.get (c : RecordCache) (name : Str) : Option CacheEntry :=
  alookup c.entries name

/-- Cache write: insert or refresh the entry at the most-recent position,
then evict down to the size bound. -/
def RecordCache.set (c : RecordCache) (name : Str) (version message : Str) :
    RecordCache :=
  let es := (name, CacheEntry.mk version message) :: aerase c.entries name
  { c with entries := evictLoop c.locked c.max es.length es }

/-- Pin a name. -/
def RecordCache.lock (c : RecordCache) (name : Str) : RecordCache :=
  { c with locked := sadd c.locked name }

/-- Unpin a name. -/
def RecordCache.unlock (c : RecordCache) (name : Str) : RecordCache :=
  { c with locked := c.locked.erase name }

/-! ### RecordHandler (embedded in `src/README.md`)

The handler owns the cache and a `SubscriptionRegistry` for the record
topic; its constructor wires a subscription listener that pins a name on
the first local subscription and unpins it when the last one leaves. -/

structure RHState where
  cache : RecordCache
  reg : Registry
deriving DecidableEq, Repr

inductive ErrEvent
  | RECORD_LOAD_ERROR
  | RECORD_UPDATE_ERROR
  | INVALID_MESSAGE_DATA
  | UNKNOWN_ACTION
deriving DecidableEq, Repr

inductive Effect
  | sendNative (socket : Nat) (msg : Str)
  | sendError (socket : Nat) (event : ErrEvent) (payload : List Str)
  | storageGet (name : Str)
  | storageSet (data : List Str) (socket : Nat)
  | logError (event : ErrEvent)
deriving DecidableEq, Repr

/-- Join string parts with a separator character. -/
def strJoin (sep : Char) : List Str → Str
  | [] => []
  | [d] => d
  | d :: rest => d ++ sep :: strJoin sep rest

/-- The record topic character of the wire protocol. -/
def TOPIC_RECORD : Str := [ 'R' ]

/-- The UPDATE action character of the wire protocol. -/
def ACTION_UPDATE : Str := [ 'U' ]

/-- Frame construction (`messageBuilder.getMsg`): topic, action and data
parts separated by the part separator, terminated by the message
separator. -/
def getMsg (topic action : Str) (data : List Str) : Str :=
  topic ++ partSep :: (action ++ partSep :: strJoin partSep data) ++ [msgSep]

/-- Embedding of `RecordHandler._broadcast`, the cache-merge path: if the
cached version is the same or newer, drop the frame; otherwise store the
new version with its raw frame and buffer the frame to the local
subscribers, excluding the sender. -/
def rhBroadcast (st : RHState) (name version message : Str) (sender : Option Nat) :
    RHState :=
  let prev := st.cache.get name
  if isSameOrNewer (prev.map CacheEntry.version) (some version) then st
  else RHState.mk (st.cache.set name version message)
        (st.reg.sendToSubscribers name message sender)

/-- Storage-exclusion test `!this._storageExclusion || !this._storageExclusion.test(name)`. -/
def exclAllows (excl : Option (Str → Bool)) (name : Str) : Bool :=
  excl.elim true fun f => ! f name

/-- Embedding of the READ branch of `RecordHandler.handle`, together with
the constructor's pin wiring (`count === 1` pins the name): subscribe the
socket, send the raw message when the cached record is hydrated, and when
the record is absent insert the `("", "")` placeholder and issue a storage
read unless the name is storage-excluded. -/
def handleRead (excl : Option (Str → Bool)) (st : RHState) (name : Str)
    (socket : Nat) : RHState × List Effect :=
  let s1 := st.reg.subscribe name socket
  let cache1 :=
    match s1.2 with
    | SubResult.added 1 => st.cache.lock name
    | _ => st.cache
  let st1 := RHState.mk cache1 s1.1
  match st1.cache.get name with
  | some record =>
    if record.message ≠ [] then (st1, [Effect.sendNative socket record.message])
    else (st1, [])
  | none =>
    if exclAllows excl name then
      (RHState.mk (st1.cache.set name [] []) st1.reg, [Effect.storageGet name])
    else (st1, [])

/-- Embedding of the UPDATE branch of `RecordHandler.handle`: write the
record through to storage exactly when the numeric version part lies
strictly between 0 and `MAX_SAFE_INTEGER` and the name is not
storage-excluded, and in every case feed the update through the
cache-merge path with the sender excluded. -/
def handleUpdate (excl : Option (Str → Bool)) (st : RHState) (socket : Nat)
    (data : List Str) : RHState × List Effect :=
  let name := data.getD 0 []
  let version := data.getD 1 []
  let start := (splitRev version).1
  let effects :=
    if jsGt start (some 0) && jsLt start (some MAX_SAFE_INTEGER)
        && exclAllows excl name then
      [Effect.storageSet data socket]
    else []
  let nextRecord := data.take 3
  (rhBroadcast st name version (getMsg TOPIC_RECORD ACTION_UPDATE nextRecord)
      (some socket),
   effects)

/-- Embedding of the `storage.get` callback of the READ branch: log
`RECORD_LOAD_ERROR` on failure, feed the loaded record through the
cache-merge path (without a sender) on success. -/
def onReadStorageResponse (st : RHState) (error : Bool) (rec : List Str) :
    RHState × List Effect :=
  if error then (st, [Effect.logError ErrEvent.RECORD_LOAD_ERROR])
  else
    (rhBroadcast st (rec.getD 0 []) (rec.getD 1 [])
        (getMsg TOPIC_RECORD ACTION_UPDATE rec) none,
     [])

/-- Embedding of the `storage.set` callback of the UPDATE branch: send
`RECORD_UPDATE_ERROR` back to the original sender on failure. -/
def onUpdateStorageResponse (error : Bool) (data : List Str) (socket : Nat) :
    List Effect :=
  if error then [Effect.sendError socket ErrEvent.RECORD_UPDATE_ERROR data] else []

/-- Embedding of the UNSUBSCRIBE branch together with the constructor's
unpin wiring (`count === 0` unpins the name). -/
def handleUnsubscribe (st : RHState) (name : Str) (socket : Nat) : RHState :=
  let u := st.reg.unsubscribe name socket
  let cache1 :=
    match u.2 with
    | UnsubResult.removed 0 => st.cache.unlock name
    | _ => st.cache
  RHState.mk cache1 u.1

/-- Record-handler entry points, as one step relation for the pinning
invariant. -/
inductive RHOp
  | read (name : Str) (socket : Nat)
  | update (socket : Nat) (data : List Str)
  | unsubscribe (name : Str) (socket : Nat)
  | readResponse (error : Bool) (rec : List Str)
  | tick
deriving Repr

/-- One record-handler operation applied to the state. -/
def rhStep (excl : Option (Str → Bool)) (st : RHState) : RHOp → RHState
  | RHOp.read n s => (handleRead excl st n s).1
  | RHOp.update s d => (handleUpdate excl st s d).1
  | RHOp.unsubscribe n s => handleUnsubscribe st n s
  | RHOp.readResponse e rec => (onReadStorageResponse st e rec).1
  | RHOp.tick => RHState.mk st.cache st.reg.onBroadcastTimeout.1

/-- System invariant for the pinning claim: the registry is well-formed
and every name with a live subscription is pinned in the cache. -/
def SysInv (st : RHState) : Prop :=
  RegInv st.reg ∧ ∀ p ∈ st.reg.subscriptions, p.1 ∈ st.cache.locked

/-- Claim condition of the specification for the cache merge, read off
its words: the stored version's numeric part is INF, or it is strictly
greater than the incoming numeric part, or the numeric parts are equal
and the stored tag is lexicographically greater than or equal. -/
def specPrevWins (a b : Str) : Bool :=
  let av := (splitRev a).1
  let ar := (splitRev a).2
  let bv := (splitRev b).1
  let br := (splitRev b).2
  jsEqNum av (some MAX_SAFE_INTEGER) || jsGt av bv || (jsEqNum av bv && strGe ar br)

/-! ### RpcHandler

Modelled from the spec: the file `src/rpc/rpc-handler.js` is not part of
the source tree — only its test suite (embedded in `src/README.md`) is.
Per §4.3 of the spec the handler keeps one invocation per correlation id,
`AWAIT_ACCEPT` on REQUEST, `AWAIT_RESPONSE` after the first ACCEPT, and
removes the invocation on RESPONSE/ERROR or timeout; late or out-of-state
frames from providers are answered with `INVALID_RPC_CORRELATION_ID`, a
second ACCEPT with `MULTIPLE_ACCEPT` plus a re-forwarded REQUEST. -/

inductive RpcAction
  | request
  | accept
  | response
  | rpcErr
deriving DecidableEq, Repr

structure RpcMsg where
  action : RpcAction
  name : Str
  cid : Nat
  data : Str
deriving DecidableEq, Repr

inductive RpcState
  | awaitAccept
  | awaitResponse
deriving DecidableEq, Repr

structure RpcInvocation where
  requestor : Nat
  provider : Nat
  request : RpcMsg
  state : RpcState
deriving DecidableEq, Repr

inductive RpcErrCode
  | NO_RPC_PROVIDER
  | MULTIPLE_ACCEPT
  | INVALID_RPC_CORRELATION_ID
  | ACCEPT_TIMEOUT
  | RESPONSE_TIMEOUT
deriving DecidableEq, Repr

inductive RpcOut
  | message (dst : Nat) (m : RpcMsg)
  | errorFrame (dst : Nat) (m : RpcMsg) (code : RpcErrCode)
deriving DecidableEq, Repr

structure RpcHandler where
  rpcs : List (Nat × RpcInvocation)
deriving DecidableEq, Repr

/-- Modelled from the spec: REQUEST by a requestor — with no provider,
error `NO_RPC_PROVIDER` back; otherwise pick one provider (the random
choice is the index argument), forward the REQUEST frame to it and create
an `AWAIT_ACCEPT` invocation. -/
def rpcRequest (h : RpcHandler) (requestor : Nat) (m : RpcMsg)
    (providers : List Nat) (k : Nat) : RpcHandler × List RpcOut :=
  if providers = [] then (h, [RpcOut.errorFrame requestor m RpcErrCode.NO_RPC_PROVIDER])
  else
    let p := providers.getD (k % providers.length) 0
    (RpcHandler.mk (aset h.rpcs m.cid (RpcInvocation.mk requestor p m RpcState.awaitAccept)),
     [RpcOut.message p m])

/-- Modelled from the spec: ACCEPT by a socket — unknown correlation id is
`INVALID_RPC_CORRELATION_ID`; in `AWAIT_ACCEPT` the ACCEPT is forwarded to
the requestor and the invocation advances; in `AWAIT_RESPONSE` (a second
ACCEPT) the accepter receives `MULTIPLE_ACCEPT` referencing the original
REQUEST together with a re-forwarded REQUEST frame. -/
def rpcAccept (h : RpcHandler) (socket : Nat) (m : RpcMsg) : RpcHandler × List RpcOut :=
  match alookup h.rpcs m.cid with
  | none => (h, [RpcOut.errorFrame socket m RpcErrCode.INVALID_RPC_CORRELATION_ID])
  | some rpc =>
    match rpc.state with
    | RpcState.awaitAccept =>
      (RpcHandler.mk (aset h.rpcs m.cid { rpc with state := RpcState.awaitResponse }),
       [RpcOut.message rpc.requestor m])
    | RpcState.awaitResponse =>
      (h, [RpcOut.errorFrame socket rpc.request RpcErrCode.MULTIPLE_ACCEPT,
           RpcOut.message socket rpc.request])

/-- Modelled from the spec: RESPONSE (or ERROR) by a socket — in
`AWAIT_RESPONSE` it is forwarded to the requestor and the invocation is
removed; any other situation (unknown or terminated correlation id, or
state `AWAIT_ACCEPT`) is answered with `INVALID_RPC_CORRELATION_ID`. -/
def rpcResponse (h : RpcHandler) (socket : Nat) (m : RpcMsg) : RpcHandler × List RpcOut :=
  match alookup h.rpcs m.cid with
  | some rpc =>
    match rpc.state with
    | RpcState.awaitResponse =>
      (RpcHandler.mk (aerase h.rpcs m.cid), [RpcOut.message rpc.requestor m])
    | RpcState.awaitAccept =>
      (h, [RpcOut.errorFrame socket m RpcErrCode.INVALID_RPC_CORRELATION_ID])
  | none => (h, [RpcOut.errorFrame socket m RpcErrCode.INVALID_RPC_CORRELATION_ID])

/-- Modelled from the spec: expiry of the ack timer — in `AWAIT_ACCEPT`
send `ACCEPT_TIMEOUT` referencing the original REQUEST to the requestor
and terminate. -/
def rpcAckTimeout (h : RpcHandler) (cid : Nat) : RpcHandler × List RpcOut :=
  match alookup h.rpcs cid with
  | some rpc =>
    match rpc.state with
    | RpcState.awaitAccept =>
      (RpcHandler.mk (aerase h.rpcs cid),
       [RpcOut.errorFrame rpc.requestor rpc.request RpcErrCode.ACCEPT_TIMEOUT])
    | RpcState.awaitResponse => (h, [])
  | none => (h, [])

/-- Modelled from the spec: expiry of the response timer — in
`AWAIT_RESPONSE` send `RESPONSE_TIMEOUT` referencing the original REQUEST
to the requestor and terminate. -/
def rpcResponseTimeout (h : RpcHandler) (cid : Nat) : RpcHandler × List RpcOut :=
  match alookup h.rpcs cid with
  | some rpc =>
    match rpc.state with
    | RpcState.awaitResponse =>
      (RpcHandler.mk (aerase h.rpcs cid),
       [RpcOut.errorFrame rpc.requestor rpc.request RpcErrCode.RESPONSE_TIMEOUT])
    | RpcState.awaitAccept => (h, [])
  | none => (h, [])

/-- Target socket of an RPC output frame. -/
def rpcOutTarget : RpcOut → Nat
  | RpcOut.message dst _ => dst
  | RpcOut.errorFrame dst _ _ => dst

/-! ### ListenerRegistry (embedded in `src/src/record/record-handler.js`)

The cluster variant: the provider entry per record name lives in a
distributed map written through `upsert`; rejected offers clear the
provider while keeping the history of already-offered `(uuid, pattern)`
ids, and the next `tryAdd` pass picks randomly among the unhistoried
matching listeners.  Regex matching (`name.match(pattern)`) is an
external collaborator and is embedded as the oracle `matches`. -/

structure LProvider where
  uuid : Option Str
  pattern : Option Str
  serverName : Option Str
  deadline : Option Int
  history : Option (List Str)
deriving DecidableEq, Repr

/-- The empty object a cluster upsert presents for an absent name. -/
def emptyProvider : LProvider := LProvider.mk none none none none none

structure LMatch where
  id : Str
  uuid : Str
  pattern : Str
deriving DecidableEq, Repr

structure LCtx where
  serverName : Str
  remoteServers : List Str
  listeners : List (Str × List Str)
  matchTest : Str → Str → Bool
  listenResponseTimeout : Int

/-- History id of a listener offer: `socket.uuid + SEP + pattern`. -/
def mkListenId (uuid pattern : Str) : Str := uuid ++ msgSep :: pattern

/-- Embedding of `ListenerRegistry._match`: every (listener, pattern)
pair whose pattern matches the name, in listener-then-pattern order. -/
def matchList (ctx : LCtx) (name : Str) : List LMatch :=
  ctx.listeners.flatMap fun up =>
    (up.2.filter fun p => ctx.matchTest name p).map fun p =>
      LMatch.mk (mkListenId up.1 p) up.1 p

/-- Embedding of `ListenerRegistry._isLocal`. -/
def lIsLocal (ctx : LCtx) (p : LProvider) : Bool :=
  p.serverName = some ctx.serverName

/-- Embedding of `ListenerRegistry._isRemote`. -/
def lIsRemote (ctx : LCtx) (p : LProvider) : Bool :=
  match p.serverName with
  | some s => s ∈ ctx.remoteServers
  | none => false

/-- Embedding of `ListenerRegistry._isConnected`. -/
def lIsConnected (ctx : LCtx) (p : LProvider) : Bool :=
  if lIsLocal ctx p then
    match p.uuid with
    | some u =>
      match alookup ctx.listeners u with
      | some pats =>
        match p.pattern with
        | some pat => pats.contains pat
        | none => false
      | none => false
    | none => false
  else lIsRemote ctx p

/-- Embedding of `ListenerRegistry._isAlive`. -/
def lIsAlive (ctx : LCtx) (now : Int) (p : LProvider) : Bool :=
  (match p.deadline with
   | none => true
   | some d => d > now) && lIsConnected ctx p

/-- Embedding of the upsert function of `ListenerRegistry._reject`: when
the current entry carries the rejecting socket's uuid and the pattern,
clear the provider but keep the history; otherwise nothing to change. -/
def rejectUpsert (socketUuid pattern : Str) (prev : LProvider) : Option LProvider :=
  if prev.uuid = some socketUuid ∧ prev.pattern = some pattern then
    some (LProvider.mk none none none none prev.history)
  else none

/-- The eligible matches of a `_tryAdd` pass: the matching listeners whose
offer id is not yet in the history. -/
def lEligible (ctx : LCtx) (name : Str) (history : List Str) : List LMatch :=
  (matchList ctx name).filter fun m => m.id ∉ history

/-- Embedding of the upsert function of `ListenerRegistry._tryAdd`: keep
an alive provider; otherwise filter the matching listeners through the
history, store the bare history when none remains, else pick the
`k % length`-th match (the random index), record its id in the history and
offer it with a fresh deadline. -/
def tryAddUpsert (ctx : LCtx) (name : Str) (prev : LProvider) (now : Int)
    (k : Nat) : Option LProvider :=
  if lIsAlive ctx now prev then none
  else
    let history := prev.history.getD []
    let ms := lEligible ctx name history
    if ms = [] then some (LProvider.mk none none none none (some history))
    else
      let m := ms.getD (k % ms.length) (LMatch.mk [] [] [])
      some (LProvider.mk (some m.uuid) (some m.pattern) (some ctx.serverName)
        (some (now + ctx.listenResponseTimeout)) (some (history ++ [m.id])))

/-- REJECT at the provider-map level: apply the upsert to the stored
entry (the empty object when absent). -/
def lReject (providers : List (Str × LProvider)) (socketUuid pattern name : Str) :
    List (Str × LProvider) :=
  match rejectUpsert socketUuid pattern ((alookup providers name).getD emptyProvider) with
  | some next => aset providers name next
  | none => providers

/-- `tryAdd` at the provider-map level. -/
def lTryAdd (ctx : LCtx) (providers : List (Str × LProvider)) (name : Str)
    (now : Int) (k : Nat) : List (Str × LProvider) :=
  match tryAddUpsert ctx name ((alookup providers name).getD emptyProvider) now k with
  | some next => aset providers name next
  | none => providers

/-! ## Lemma library: association lists and set-lists -/

@[simp]
theorem alookup_nil {α β : Type} [DecidableEq α] (k : α) :
    alookup ([] : List (α × β)) k = none := rfl

@[simp]
theorem alookup_cons {α β : Type} [DecidableEq α] (a : α) (b : β)
    (l : List (α × β)) (k : α) :
    alookup ((a, b) :: l) k = if a = k then some b else alookup l k := rfl

theorem alookup_eq_none_iff {α β : Type} [DecidableEq α] {l : List (α × β)} {k : α} :
    alookup l k = none ↔ k ∉ l.map Prod.fst := by
  induction l with
  | nil => simp
  | cons p rest ih =>
    obtain ⟨a, b⟩ := p
    by_cases h : a = k
    · subst h
      simp
    · simp only [alookup_cons, if_neg h, List.map_cons, List.mem_cons, ih]
      constructor
      · intro hk hc
        rcases hc with hc | hc
        · exact h hc.symm
        · exact hk hc
      · intro hk hc
        exact hk (Or.inr hc)

theorem mem_keys_iff_isSome {α β : Type} [DecidableEq α] {l : List (α × β)} {k : α} :
    k ∈ l.map Prod.fst ↔ (alookup l k).isSome := by
  rcases h : alookup l k with _ | v
  · simp [alookup_eq_none_iff.mp h]
  · simp only [Option.isSome_some, iff_true]
    by_contra hk
    rw [alookup_eq_none_iff.mpr hk] at h
    exact Option.noConfusion h

theorem mem_of_alookup {α β : Type} [DecidableEq α] {l : List (α × β)} {k : α} {v : β}
    (h : alookup l k = some v) : (k, v) ∈ l := by
  induction l with
  | nil => simp at h
  | cons p rest ih =>
    obtain ⟨a, b⟩ := p
    by_cases ha : a = k
    · subst ha
      simp at h
      simp [h]
    · simp [ha] at h
      simp [ih h]

theorem alookup_of_mem {α β : Type} [DecidableEq α] {l : List (α × β)} {k : α} {v : β}
    (hnd : (l.map Prod.fst).Nodup) (h : (k, v) ∈ l) : alookup l k = some v := by
  induction l with
  | nil => simp at h
  | cons p rest ih =>
    obtain ⟨a, b⟩ := p
    simp only [List.map_cons, List.nodup_cons] at hnd
    rcases List.mem_cons.mp h with h1 | h1
    · cases h1
      simp
    · have hak : a ≠ k := by
        rintro rfl
        exact hnd.1 (List.mem_map_of_mem Prod.fst h1)
      simp [hak, ih hnd.2 h1]

@[simp]
theorem alookup_aset_self {α β : Type} [DecidableEq α] (l : List (α × β)) (k : α) (v : β) :
    alookup (aset l k v) k = some v := by
  induction l with
  | nil => simp [aset]
  | cons p rest ih =>
    obtain ⟨a, b⟩ := p
    by_cases h : a = k <;> simp [aset, h, ih]

theorem alookup_aset_ne {α β : Type} [DecidableEq α] (l : List (α × β)) (k k2 : α) (v : β)
    (h : k2 ≠ k) : alookup (aset l k v) k2 = alookup l k2 := by
  have h2 : ¬ k = k2 := fun e => h e.symm
  induction l with
  | nil => simp [aset, h2]
  | cons p rest ih =>
    obtain ⟨a, b⟩ := p
    by_cases ha : a = k
    · subst ha
      simp [aset, h2]
    · simp [aset, ha, ih]

theorem keys_aset {α β : Type} [DecidableEq α] (l : List (α × β)) (k : α) (v : β) :
    (aset l k v).map Prod.fst =
      if k ∈ l.map Prod.fst then l.map Prod.fst else l.map Prod.fst ++ [k] := by
  induction l with
  | nil => simp [aset]
  | cons p rest ih =>
    obtain ⟨a, b⟩ := p
    by_cases h : a = k
    · subst h
      simp [aset]
    · have : ¬ k = a := fun e => h e.symm
      simp only [aset, if_neg h, List.map_cons, ih, List.mem_cons]
      by_cases hk : k ∈ rest.map Prod.fst <;> simp [hk, this]

theorem keys_aerase {α β : Type} [DecidableEq α] [BEq α] [LawfulBEq α]
    (l : List (α × β)) (k : α) :
    (aerase l k).map Prod.fst = (l.map Prod.fst).erase k := by
  induction l with
  | nil => simp [aerase]
  | cons p rest ih =>
    obtain ⟨a, b⟩ := p
    by_cases h : a = k
    · subst h
      simp [aerase]
    · have : ¬ a = k := h
      simp [aerase, h, ih, List.erase_cons, this]

theorem nodup_keys_aset {α β : Type} [DecidableEq α] {l : List (α × β)} {k : α} {v : β}
    (hnd : (l.map Prod.fst).Nodup) : ((aset l k v).map Prod.fst).Nodup := by
  rw [keys_aset]
  by_cases h : k ∈ l.map Prod.fst
  · simpa [h]
  · simp only [h, if_false]
    exact List.Nodup.append hnd (List.nodup_singleton k) (by simpa using h)

theorem nodup_keys_aerase {α β : Type} [DecidableEq α] [BEq α] [LawfulBEq α]
    {l : List (α × β)} {k : α}
    (hnd : (l.map Prod.fst).Nodup) : ((aerase l k).map Prod.fst).Nodup := by
  rw [keys_aerase]
  exact hnd.erase k

theorem alookup_aerase_self {α β : Type} [DecidableEq α] [BEq α] [LawfulBEq α]
    {l : List (α × β)} {k : α}
    (hnd : (l.map Prod.fst).Nodup) : alookup (aerase l k) k = none := by
  rw [alookup_eq_none_iff, keys_aerase]
  exact hnd.not_mem_erase

theorem alookup_aerase_ne {α β : Type} [DecidableEq α] (l : List (α × β)) (k k2 : α)
    (h : k2 ≠ k) : alookup (aerase l k) k2 = alookup l k2 := by
  have h2 : ¬ k = k2 := fun e => h e.symm
  induction l with
  | nil => simp [aerase]
  | cons p rest ih =>
    obtain ⟨a, b⟩ := p
    by_cases ha : a = k
    · subst ha
      simp [aerase, h2]
    · simp [aerase, ha, ih]

theorem mem_aset_iff {α β : Type} [DecidableEq α] {l : List (α × β)} {k : α} {v : β}
    {p : α × β} (hnd : (l.map Prod.fst).Nodup) :
    p ∈ aset l k v ↔ p = (k, v) ∨ (p ∈ l ∧ p.1 ≠ k) := by
  induction l with
  | nil =>
    simp only [aset, List.mem_singleton, List.not_mem_nil, false_and, or_false]
  | cons q rest ih =>
    obtain ⟨a, b⟩ := q
    simp only [List.map_cons, List.nodup_cons] at hnd
    by_cases h : a = k
    · subst h
      have he : aset ((a, b) :: rest) a v = (a, v) :: rest := by simp [aset]
      rw [he]
      simp only [List.mem_cons]
      constructor
      · rintro (h1 | h1)
        · exact Or.inl h1
        · refine Or.inr ⟨Or.inr h1, ?_⟩
          rintro hp
          exact hnd.1 (hp ▸ List.mem_map_of_mem Prod.fst h1)
      · rintro (rfl | ⟨h1 | h1, hne⟩)
        · exact Or.inl rfl
        · exact absurd (congrArg Prod.fst h1) hne
        · exact Or.inr h1
    · have he : aset ((a, b) :: rest) k v = (a, b) :: aset rest k v := by simp [aset, h]
      rw [he]
      simp only [List.mem_cons, ih hnd.2]
      constructor
      · rintro (rfl | rfl | h1)
        · exact Or.inr ⟨Or.inl rfl, h⟩
        · exact Or.inl rfl
        · exact Or.inr ⟨Or.inr h1.1, h1.2⟩
      · rintro (rfl | ⟨rfl | h1, hne⟩)
        · exact Or.inr (Or.inl rfl)
        · exact Or.inl rfl
        · exact Or.inr (Or.inr ⟨h1, hne⟩)

theorem mem_aerase_iff {α β : Type} [DecidableEq α] {l : List (α × β)} {k : α}
    {p : α × β} (hnd : (l.map Prod.fst).Nodup) :
    p ∈ aerase l k ↔ p ∈ l ∧ p.1 ≠ k := by
  induction l with
  | nil => simp [aerase]
  | cons q rest ih =>
    obtain ⟨a, b⟩ := q
    simp only [List.map_cons, List.nodup_cons] at hnd
    by_cases h : a = k
    · subst h
      have he : aerase ((a, b) :: rest) a = rest := by simp [aerase]
      rw [he]
      simp only [List.mem_cons]
      constructor
      · intro hm
        refine ⟨Or.inr hm, ?_⟩
        rintro hp
        exact hnd.1 (hp ▸ List.mem_map_of_mem Prod.fst hm)
      · rintro ⟨rfl | h1, hne⟩
        · exact absurd rfl hne
        · exact h1
    · have he : aerase ((a, b) :: rest) k = (a, b) :: aerase rest k := by simp [aerase, h]
      rw [he]
      simp only [List.mem_cons, ih hnd.2]
      constructor
      · rintro (rfl | ⟨h1, h2⟩)
        · exact ⟨Or.inl rfl, h⟩
        · exact ⟨Or.inr h1, h2⟩
      · rintro ⟨rfl | h1, hne⟩
        · exact Or.inl rfl
        · exact Or.inr ⟨h1, hne⟩

theorem mem_sadd {α : Type} [DecidableEq α] {l : List α} {x y : α} :
    y ∈ sadd l x ↔ y ∈ l ∨ y = x := by
  by_cases h : x ∈ l
  · simp only [sadd, if_pos h]
    constructor
    · exact Or.inl
    · rintro (h1 | rfl)
      · exact h1
      · exact h
  · simp [sadd, if_neg h]

theorem mem_sadd_self {α : Type} [DecidableEq α] (l : List α) (x : α) :
    x ∈ sadd l x := mem_sadd.mpr (Or.inr rfl)

theorem sadd_nodup {α : Type} [DecidableEq α] {l : List α} {x : α}
    (h : l.Nodup) : (sadd l x).Nodup := by
  by_cases hx : x ∈ l
  · simpa [sadd, hx]
  · simp only [sadd, if_neg hx]
    exact List.Nodup.append h (List.nodup_singleton x) (by simpa using hx)

theorem sadd_ne_nil {α : Type} [DecidableEq α] (l : List α) (x : α) :
    sadd l x ≠ [] := by
  intro h
  exact (List.ne_nil_of_mem (mem_sadd_self l x)) h

theorem keys_subset_aset {α β : Type} [DecidableEq α] {l : List (α × β)} {k k2 : α}
    {v : β} (h : k2 ∈ l.map Prod.fst) : k2 ∈ (aset l k v).map Prod.fst := by
  rw [keys_aset]
  split <;> simp [h]

theorem self_mem_keys_aset {α β : Type} [DecidableEq α] (l : List (α × β)) (k : α)
    (v : β) : k ∈ (aset l k v).map Prod.fst := by
  rw [mem_keys_iff_isSome, alookup_aset_self]
  rfl

/-! ## Registry characterizations and invariant preservation -/

theorem subscribe_of_mem {r : Registry} {name : Str} {socket : Nat}
    (h : socket ∈ ((alookup r.subscriptions name).getD emptySub).sockets) :
    r.subscribe name socket = (r, SubResult.duplicate) := by
  simp [Registry.subscribe, h]

theorem subscribe_of_not_mem {r : Registry} {name : Str} {socket : Nat}
    (h : socket ∉ ((alookup r.subscriptions name).getD emptySub).sockets) :
    r.subscribe name socket =
      (Registry.mk
        (aset r.subscriptions name
          { (alookup r.subscriptions name).getD emptySub with
              sockets := ((alookup r.subscriptions name).getD emptySub).sockets ++ [socket] })
        (aset r.names socket (sadd (namesOf r socket) name))
        r.pending
        (sadd r.closeListeners socket),
       SubResult.added
         (((alookup r.subscriptions name).getD emptySub).sockets.length + 1)) := by
  simp [Registry.subscribe, h]

theorem socketsOf_some {r : Registry} {name : Str} {sub : Subscription}
    (h : alookup r.subscriptions name = some sub) : socketsOf r name = sub.sockets := by
  simp [socketsOf, h]

theorem namesOf_some {r : Registry} {socket : Nat} {ns : List Str}
    (h : alookup r.names socket = some ns) : namesOf r socket = ns := by
  simp [namesOf, h]

theorem sub_sockets_eq (r : Registry) (name : Str) :
    ((alookup r.subscriptions name).getD emptySub).sockets = socketsOf r name := by
  rcases h : alookup r.subscriptions name with _ | sub <;> simp [socketsOf, h, emptySub]

theorem sub_sockets_nodup {r : Registry} (inv : RegInv r) (name : Str) :
    ((alookup r.subscriptions name).getD emptySub).sockets.Nodup := by
  rcases h : alookup r.subscriptions name with _ | sub
  · simp [emptySub]
  · exact inv.socketsNodup _ (mem_of_alookup h)

theorem sub_fwd {r : Registry} (inv : RegInv r) (name : Str) :
    ∀ s ∈ ((alookup r.subscriptions name).getD emptySub).sockets,
      name ∈ namesOf r s := by
  rcases h : alookup r.subscriptions name with _ | sub
  · simp [emptySub]
  · exact fun s hs => inv.fwd _ (mem_of_alookup h) s hs

theorem namesOf_nodup {r : Registry} (inv : RegInv r) (socket : Nat) :
    (namesOf r socket).Nodup := by
  rcases h : alookup r.names socket with _ | ns
  · simp [namesOf, h]
  · rw [namesOf_some h]
    exact inv.nameListsNodup _ (mem_of_alookup h)

theorem namesOf_bwd {r : Registry} (inv : RegInv r) (socket : Nat) :
    ∀ n ∈ namesOf r socket, socket ∈ socketsOf r n := by
  rcases h : alookup r.names socket with _ | ns
  · simp [namesOf, h]
  · rw [namesOf_some h]
    exact fun n hn => inv.bwd _ (mem_of_alookup h) n hn

/-- `subscribe` preserves the registry invariant. -/
theorem regInv_subscribe {r : Registry} (inv : RegInv r) (name : Str) (socket : Nat) :
    RegInv (r.subscribe name socket).1 := by
  by_cases hmem : socket ∈ ((alookup r.subscriptions name).getD emptySub).sockets
  · rw [subscribe_of_mem hmem]
    exact inv
  · rw [subscribe_of_not_mem hmem]
    have hS := inv.subsKeysNodup
    have hN := inv.namesKeysNodup
    have hsubN := sub_sockets_nodup inv name
    have hnsN := namesOf_nodup inv socket
    refine RegInv.mk ?_ ?_ ?_ ?_ ?_ ?_ ?_ ?_ ?_ ?_ ?_ ?_ ?_
    · exact nodup_keys_aset hS
    · exact nodup_keys_aset hN
    ·
      intro p hp
      rcases (mem_aset_iff hS).mp hp with rfl | ⟨hpl, _⟩
      · refine List.Nodup.append hsubN (List.nodup_singleton socket) ?_
        intro a ha hb
        rw [List.mem_singleton] at hb
        exact hmem (hb ▸ ha)
      · exact inv.socketsNodup p hpl
    · intro p hp
      rcases (mem_aset_iff hS).mp hp with rfl | ⟨hpl, _⟩
      · simp
      · exact inv.socketsNonempty p hpl
    ·
      intro q hq
      rcases (mem_aset_iff hN).mp hq with rfl | ⟨hql, _⟩
      · exact sadd_nodup hnsN
      · exact inv.nameListsNodup q hql
    · intro q hq
      rcases (mem_aset_iff hN).mp hq with rfl | ⟨hql, _⟩
      · exact sadd_ne_nil _ _
      · exact inv.nameListsNonempty q hql
    ·
      intro p hp s hs
      rcases (mem_aset_iff hS).mp hp with rfl | ⟨hpl, hne⟩
      · rcases List.mem_append.mp hs with hs1 | hs1
        · have hsne : s ≠ socket := fun e => hmem (e ▸ hs1)
          have hold := sub_fwd inv name s hs1
          simpa [namesOf, alookup_aset_ne _ _ _ _ hsne] using hold
        · rw [List.mem_singleton] at hs1
          subst hs1
          simp only [namesOf, alookup_aset_self, Option.getD_some]
          exact mem_sadd_self _ _
      · have hold := inv.fwd p hpl s hs
        by_cases hsne : s = socket
        · subst hsne
          simp only [namesOf, alookup_aset_self, Option.getD_some]
          exact mem_sadd.mpr (Or.inl hold)
        · simpa [namesOf, alookup_aset_ne _ _ _ _ hsne] using hold
    ·
      intro q hq n hn
      rcases (mem_aset_iff hN).mp hq with rfl | ⟨hql, hne⟩
      · by_cases hn2 : n = name
        · subst hn2
          simp only [socketsOf, alookup_aset_self, Option.map_some, Option.getD_some]
          simp
        · rcases mem_sadd.mp hn with hn1 | hn1
          · have hold := namesOf_bwd inv socket n hn1
            simpa [socketsOf, alookup_aset_ne _ _ _ _ hn2] using hold
          · exact absurd hn1 hn2
      · have hold := inv.bwd q hql n hn
        by_cases hn2 : n = name
        · subst hn2
          rw [← sub_sockets_eq r n] at hold
          simp only [socketsOf, alookup_aset_self, Option.map_some, Option.getD_some]
          exact List.mem_append_left _ hold
        · simpa [socketsOf, alookup_aset_ne _ _ _ _ hn2] using hold
    · exact inv.pendingNodup
    · intro n hp
      exact keys_subset_aset (inv.pendingSub n hp)
    · exact sadd_nodup inv.closeNodup
    · intro s hs
      rcases mem_sadd.mp hs with hs1 | rfl
      · exact keys_subset_aset (inv.closeFwd s hs1)
      · exact self_mem_keys_aset _ _ _
    · intro q hq
      rcases (mem_aset_iff hN).mp hq with rfl | ⟨hql, _⟩
      · exact mem_sadd_self _ _
      · exact mem_sadd.mpr (Or.inl (inv.closeBwd q hql))

theorem unsubscribe_none {r : Registry} {name : Str} (socket : Nat)
    (h : alookup r.subscriptions name = none) :
    r.unsubscribe name socket = (r, UnsubResult.notSubscribed) := by
  simp [Registry.unsubscribe, h]

theorem unsubscribe_not_mem {r : Registry} {name : Str} {socket : Nat}
    {sub : Subscription} (h : alookup r.subscriptions name = some sub)
    (h2 : socket ∉ sub.sockets) :
    r.unsubscribe name socket = (r, UnsubResult.notSubscribed) := by
  simp [Registry.unsubscribe, h, h2]

theorem unsubscribe_of_mem {r : Registry} {name : Str} {socket : Nat}
    {sub : Subscription} (h : alookup r.subscriptions name = some sub)
    (h2 : socket ∈ sub.sockets) :
    r.unsubscribe name socket =
      (Registry.mk
        (if sub.sockets.erase socket = [] then aerase r.subscriptions name
         else aset r.subscriptions name
           { sub with sockets := sub.sockets.erase socket,
                      uniqueSenders := aerase sub.uniqueSenders socket })
        (if (namesOf r socket).erase name = [] then aerase r.names socket
         else aset r.names socket ((namesOf r socket).erase name))
        (if sub.sockets.erase socket = [] then r.pending.erase name else r.pending)
        (if (namesOf r socket).erase name = [] then r.closeListeners.erase socket
         else r.closeListeners),
       UnsubResult.removed (sub.sockets.erase socket).length) := by
  simp [Registry.unsubscribe, h, h2]

/-- `unsubscribe` preserves the registry invariant. -/
theorem regInv_unsubscribe {r : Registry} (inv : RegInv r) (name : Str) (socket : Nat) :
    RegInv (r.unsubscribe name socket).1 := by
  rcases h : alookup r.subscriptions name with _ | sub
  · rw [unsubscribe_none socket h]
    exact inv
  by_cases h2 : socket ∈ sub.sockets
  swap
  · rw [unsubscribe_not_mem h h2]
    exact inv
  rw [unsubscribe_of_mem h h2]
  dsimp only
  have hS := inv.subsKeysNodup
  have hN := inv.namesKeysNodup
  have hsubmem : (name, sub) ∈ r.subscriptions := mem_of_alookup h
  have hsockNodup : sub.sockets.Nodup := inv.socketsNodup _ hsubmem
  have hnameinns : name ∈ namesOf r socket := inv.fwd _ hsubmem socket h2
  have hNlook : alookup r.names socket = some (namesOf r socket) := by
    rcases hn : alookup r.names socket with _ | ns0
    · exfalso
      rw [namesOf, hn] at hnameinns
      simp at hnameinns
    · rw [namesOf_some hn]
  have hNmem : (socket, namesOf r socket) ∈ r.names := mem_of_alookup hNlook
  have hnsNodup : (namesOf r socket).Nodup := namesOf_nodup inv socket
  have hsockclose : socket ∈ r.closeListeners := inv.closeBwd _ hNmem
  have hS1mem : ∀ p : Str × Subscription,
      p ∈ (if sub.sockets.erase socket = [] then aerase r.subscriptions name
           else aset r.subscriptions name
             { sub with sockets := sub.sockets.erase socket,
                        uniqueSenders := aerase sub.uniqueSenders socket }) →
      (p ∈ r.subscriptions ∧ p.1 ≠ name) ∨
        (p = (name, { sub with sockets := sub.sockets.erase socket,
                               uniqueSenders := aerase sub.uniqueSenders socket }) ∧
         sub.sockets.erase socket ≠ []) := by
    intro p hp
    by_cases hs0 : sub.sockets.erase socket = []
    · rw [if_pos hs0] at hp
      exact Or.inl ((mem_aerase_iff hS).mp hp)
    · rw [if_neg hs0] at hp
      rcases (mem_aset_iff hS).mp hp with rfl | hpl
      · exact Or.inr ⟨rfl, hs0⟩
      · exact Or.inl hpl
  have hN1mem : ∀ q : Nat × List Str,
      q ∈ (if (namesOf r socket).erase name = [] then aerase r.names socket
           else aset r.names socket ((namesOf r socket).erase name)) →
      (q ∈ r.names ∧ q.1 ≠ socket) ∨
        (q = (socket, (namesOf r socket).erase name) ∧
         (namesOf r socket).erase name ≠ []) := by
    intro q hq
    by_cases hn0 : (namesOf r socket).erase name = []
    · rw [if_pos hn0] at hq
      exact Or.inl ((mem_aerase_iff hN).mp hq)
    · rw [if_neg hn0] at hq
      rcases (mem_aset_iff hN).mp hq with rfl | hql
      · exact Or.inr ⟨rfl, hn0⟩
      · exact Or.inl hql
  have hS1look_ne : ∀ m : Str, m ≠ name →
      alookup (if sub.sockets.erase socket = [] then aerase r.subscriptions name
               else aset r.subscriptions name
                 { sub with sockets := sub.sockets.erase socket,
                            uniqueSenders := aerase sub.uniqueSenders socket }) m =
        alookup r.subscriptions m := by
    intro m hm
    by_cases hs0 : sub.sockets.erase socket = []
    · rw [if_pos hs0]
      exact alookup_aerase_ne _ _ _ hm
    · rw [if_neg hs0]
      exact alookup_aset_ne _ _ _ _ hm
  have hN1look_ne : ∀ m : Nat, m ≠ socket →
      alookup (if (namesOf r socket).erase name = [] then aerase r.names socket
               else aset r.names socket ((namesOf r socket).erase name)) m =
        alookup r.names m := by
    intro m hm
    by_cases hn0 : (namesOf r socket).erase name = []
    · rw [if_pos hn0]
      exact alookup_aerase_ne _ _ _ hm
    · rw [if_neg hn0]
      exact alookup_aset_ne _ _ _ _ hm
  refine RegInv.mk ?_ ?_ ?_ ?_ ?_ ?_ ?_ ?_ ?_ ?_ ?_ ?_ ?_
  · by_cases hs0 : sub.sockets.erase socket = []
    · rw [if_pos hs0]
      exact nodup_keys_aerase hS
    · rw [if_neg hs0]
      exact nodup_keys_aset hS
  · by_cases hn0 : (namesOf r socket).erase name = []
    · rw [if_pos hn0]
      exact nodup_keys_aerase hN
    · rw [if_neg hn0]
      exact nodup_keys_aset hN
  · intro p hp
    rcases hS1mem p hp with ⟨hpl, _⟩ | ⟨rfl, _⟩
    · exact inv.socketsNodup p hpl
    · exact hsockNodup.erase socket
  · intro p hp
    rcases hS1mem p hp with ⟨hpl, _⟩ | ⟨rfl, hs0⟩
    · exact inv.socketsNonempty p hpl
    · exact hs0
  · intro q hq
    rcases hN1mem q hq with ⟨hql, _⟩ | ⟨rfl, _⟩
    · exact inv.nameListsNodup q hql
    · exact hnsNodup.erase name
  · intro q hq
    rcases hN1mem q hq with ⟨hql, _⟩ | ⟨rfl, hn0⟩
    · exact inv.nameListsNonempty q hql
    · exact hn0
  · intro p hp s hs
    rcases hS1mem p hp with ⟨hpl, hne⟩ | ⟨rfl, _⟩
    · have hold := inv.fwd p hpl s hs
      by_cases hss : s = socket
      · subst hss
        have hin1 : p.1 ∈ (namesOf r s).erase name :=
          (List.mem_erase_of_ne hne).mpr hold
        have hne0 : (namesOf r s).erase name ≠ [] := List.ne_nil_of_mem hin1
        show p.1 ∈ namesOf (Registry.mk _ _ _ _) s
        rw [namesOf]
        rw [if_neg hne0, alookup_aset_self]
        exact hin1
      · show p.1 ∈ namesOf (Registry.mk _ _ _ _) s
        rw [namesOf, hN1look_ne s hss]
        exact hold
    · have hs2 : s ≠ socket ∧ s ∈ sub.sockets := (hsockNodup.mem_erase_iff).mp hs
      have hold := inv.fwd _ hsubmem s hs2.2
      show name ∈ namesOf (Registry.mk _ _ _ _) s
      rw [namesOf, hN1look_ne s hs2.1]
      exact hold
  · intro q hq n hn
    rcases hN1mem q hq with ⟨hql, hqne⟩ | ⟨rfl, _⟩
    · have hold := inv.bwd q hql n hn
      by_cases hnn : n = name
      · subst hnn
        rw [socketsOf_some h] at hold
        have hin1 : q.1 ∈ sub.sockets.erase socket :=
          (List.mem_erase_of_ne hqne).mpr hold
        have hne0 : sub.sockets.erase socket ≠ [] := List.ne_nil_of_mem hin1
        show q.1 ∈ socketsOf (Registry.mk _ _ _ _) n
        rw [socketsOf]
        rw [if_neg hne0, alookup_aset_self]
        exact hin1
      · show q.1 ∈ socketsOf (Registry.mk _ _ _ _) n
        rw [socketsOf, hS1look_ne n hnn]
        exact inv.bwd q hql n hn
    · have hn2 : n ≠ name ∧ n ∈ namesOf r socket := (hnsNodup.mem_erase_iff).mp hn
      have hold := namesOf_bwd inv socket n hn2.2
      show socket ∈ socketsOf (Registry.mk _ _ _ _) n
      rw [socketsOf, hS1look_ne n hn2.1]
      exact hold
  · show (if sub.sockets.erase socket = [] then r.pending.erase name
          else r.pending).Nodup
    by_cases hs0 : sub.sockets.erase socket = []
    · rw [if_pos hs0]
      exact inv.pendingNodup.erase name
    · rw [if_neg hs0]
      exact inv.pendingNodup
  · intro n2 hp2
    replace hp2 : n2 ∈ (if sub.sockets.erase socket = [] then r.pending.erase name
        else r.pending) := hp2
    show n2 ∈ (if sub.sockets.erase socket = [] then aerase r.subscriptions name
        else aset r.subscriptions name
          { sub with sockets := sub.sockets.erase socket,
                     uniqueSenders := aerase sub.uniqueSenders socket }).map Prod.fst
    by_cases hs0 : sub.sockets.erase socket = []
    · rw [if_pos hs0] at hp2 ⊢
      have hn2 : n2 ≠ name ∧ n2 ∈ r.pending :=
        (inv.pendingNodup.mem_erase_iff).mp hp2
      rw [keys_aerase]
      exact (List.mem_erase_of_ne hn2.1).mpr (inv.pendingSub n2 hn2.2)
    · rw [if_neg hs0] at hp2 ⊢
      exact keys_subset_aset (inv.pendingSub n2 hp2)
  · show (if (namesOf r socket).erase name = [] then r.closeListeners.erase socket
          else r.closeListeners).Nodup
    by_cases hn0 : (namesOf r socket).erase name = []
    · rw [if_pos hn0]
      exact inv.closeNodup.erase socket
    · rw [if_neg hn0]
      exact inv.closeNodup
  · intro s hs
    replace hs : s ∈ (if (namesOf r socket).erase name = []
        then r.closeListeners.erase socket else r.closeListeners) := hs
    show s ∈ (if (namesOf r socket).erase name = [] then aerase r.names socket
        else aset r.names socket ((namesOf r socket).erase name)).map Prod.fst
    by_cases hn0 : (namesOf r socket).erase name = []
    · rw [if_pos hn0] at hs ⊢
      have hs2 : s ≠ socket ∧ s ∈ r.closeListeners :=
        (inv.closeNodup.mem_erase_iff).mp hs
      rw [keys_aerase]
      exact (List.mem_erase_of_ne hs2.1).mpr (inv.closeFwd s hs2.2)
    · rw [if_neg hn0] at hs ⊢
      exact keys_subset_aset (inv.closeFwd s hs)
  · intro q hq
    show q.1 ∈ (if (namesOf r socket).erase name = []
        then r.closeListeners.erase socket else r.closeListeners)
    rcases hN1mem q hq with ⟨hql, hqne⟩ | ⟨rfl, hn0⟩
    · by_cases hn0 : (namesOf r socket).erase name = []
      · rw [if_pos hn0]
        exact (List.mem_erase_of_ne hqne).mpr (inv.closeBwd q hql)
      · rw [if_neg hn0]
        exact inv.closeBwd q hql
    · rw [if_neg hn0]
      exact hsockclose

theorem bufferFrame_sockets (sub : Subscription) (msg : Str) (sender : Option Nat) :
    (bufferFrame sub msg sender).sockets = sub.sockets := by
  cases sender <;> rfl

theorem send_empty {r : Registry} {name : Str} {sender : Option Nat} :
    r.sendToSubscribers name [] sender = r := by
  simp [Registry.sendToSubscribers]

theorem send_no_sub {r : Registry} {name : Str} {msg : Str} {sender : Option Nat}
    (h : alookup r.subscriptions name = none) :
    r.sendToSubscribers name msg sender = r := by
  by_cases hm : msg = [] <;> simp [Registry.sendToSubscribers, hm, h]

theorem send_some {r : Registry} {name : Str} {msg : Str} {sender : Option Nat}
    {sub : Subscription} (hm : msg ≠ [])
    (h : alookup r.subscriptions name = some sub) :
    r.sendToSubscribers name msg sender =
      { r with
          subscriptions := aset r.subscriptions name (bufferFrame sub msg sender),
          pending := sadd r.pending name } := by
  simp [Registry.sendToSubscribers, hm, h]

/-- `sendToSubscribers` preserves the registry invariant. -/
theorem regInv_sendToSubscribers {r : Registry} (inv : RegInv r) (name : Str)
    (msg : Str) (sender : Option Nat) :
    RegInv (r.sendToSubscribers name msg sender) := by
  by_cases hm : msg = []
  · rw [hm, send_empty]
    exact inv
  rcases h : alookup r.subscriptions name with _ | sub
  · rw [send_no_sub h]
    exact inv
  rw [send_some hm h]
  have hS := inv.subsKeysNodup
  have hsubmem : (name, sub) ∈ r.subscriptions := mem_of_alookup h
  refine RegInv.mk ?_ ?_ ?_ ?_ ?_ ?_ ?_ ?_ ?_ ?_ ?_ ?_ ?_
  · exact nodup_keys_aset hS
  · exact inv.namesKeysNodup
  · intro p hp
    rcases (mem_aset_iff hS).mp hp with rfl | ⟨hpl, _⟩
    · rw [bufferFrame_sockets]
      exact inv.socketsNodup _ hsubmem
    · exact inv.socketsNodup p hpl
  · intro p hp
    rcases (mem_aset_iff hS).mp hp with rfl | ⟨hpl, _⟩
    · rw [bufferFrame_sockets]
      exact inv.socketsNonempty _ hsubmem
    · exact inv.socketsNonempty p hpl
  · exact inv.nameListsNodup
  · exact inv.nameListsNonempty
  · intro p hp s hs
    rcases (mem_aset_iff hS).mp hp with rfl | ⟨hpl, _⟩
    · rw [bufferFrame_sockets] at hs
      exact inv.fwd _ hsubmem s hs
    · exact inv.fwd p hpl s hs
  · intro q hq n hn
    have hold := inv.bwd q hq n hn
    by_cases hnn : n = name
    · subst hnn
      rw [socketsOf_some h] at hold
      show q.1 ∈ socketsOf (Registry.mk _ _ _ _) n
      rw [socketsOf, alookup_aset_self]
      show q.1 ∈ (bufferFrame sub msg sender).sockets
      rw [bufferFrame_sockets]
      exact hold
    · show q.1 ∈ socketsOf (Registry.mk _ _ _ _) n
      rw [socketsOf, alookup_aset_ne _ _ _ _ hnn]
      exact hold
  · exact sadd_nodup inv.pendingNodup
  · intro n2 hp2
    rcases mem_sadd.mp hp2 with hp3 | rfl
    · exact keys_subset_aset (inv.pendingSub n2 hp3)
    · exact self_mem_keys_aset _ _ _
  · exact inv.closeNodup
  · exact inv.closeFwd
  · exact inv.closeBwd

theorem alookup_tick_subs (l : List (Str × Subscription)) (pend : List Str) (k : Str) :
    alookup (l.map fun p => if p.1 ∈ pend then (p.1, clearSub p.2) else p) k =
      (alookup l k).map fun sub => if k ∈ pend then clearSub sub else sub := by
  induction l with
  | nil => rfl
  | cons p rest ih =>
    obtain ⟨a, b⟩ := p
    by_cases h : a = k
    · subst h
      by_cases hp : a ∈ pend <;> simp [hp]
    · by_cases hp : a ∈ pend <;> simp [h, hp, ih]

theorem keys_tick_subs (l : List (Str × Subscription)) (pend : List Str) :
    (l.map fun p => if p.1 ∈ pend then (p.1, clearSub p.2) else p).map Prod.fst =
      l.map Prod.fst := by
  induction l with
  | nil => rfl
  | cons p rest ih =>
    obtain ⟨a, b⟩ := p
    by_cases hp : a ∈ pend <;> simp [hp, ih]

theorem clearSub_sockets (sub : Subscription) : (clearSub sub).sockets = sub.sockets := rfl

theorem socketsOf_tick (r : Registry) (n : Str) :
    socketsOf r.onBroadcastTimeout.1 n = socketsOf r n := by
  show socketsOf (Registry.mk _ _ _ _) n = socketsOf r n
  rw [socketsOf, socketsOf]
  show ((alookup (r.subscriptions.map fun p =>
      if p.1 ∈ r.pending then (p.1, clearSub p.2) else p) n).map
        Subscription.sockets).getD [] = _
  rw [alookup_tick_subs]
  rcases alookup r.subscriptions n with _ | sub
  · rfl
  · by_cases hp : n ∈ r.pending <;> simp [hp, clearSub_sockets]

/-- The broadcast tick preserves the registry invariant. -/
theorem regInv_onBroadcastTimeout {r : Registry} (inv : RegInv r) :
    RegInv r.onBroadcastTimeout.1 := by
  refine RegInv.mk ?_ ?_ ?_ ?_ ?_ ?_ ?_ ?_ ?_ ?_ ?_ ?_ ?_
  · show ((r.subscriptions.map fun p =>
        if p.1 ∈ r.pending then (p.1, clearSub p.2) else p).map Prod.fst).Nodup
    rw [keys_tick_subs]
    exact inv.subsKeysNodup
  · exact inv.namesKeysNodup
  · intro p hp
    rcases List.mem_map.mp hp with ⟨q, hq, rfl⟩
    by_cases hqp : q.1 ∈ r.pending
    · rw [if_pos hqp]
      exact inv.socketsNodup q hq
    · rw [if_neg hqp]
      exact inv.socketsNodup q hq
  · intro p hp
    rcases List.mem_map.mp hp with ⟨q, hq, rfl⟩
    by_cases hqp : q.1 ∈ r.pending
    · rw [if_pos hqp]
      exact inv.socketsNonempty q hq
    · rw [if_neg hqp]
      exact inv.socketsNonempty q hq
  · exact inv.nameListsNodup
  · exact inv.nameListsNonempty
  · intro p hp s hs
    rcases List.mem_map.mp hp with ⟨q, hq, rfl⟩
    by_cases hqp : q.1 ∈ r.pending
    · rw [if_pos hqp] at hs ⊢
      exact inv.fwd q hq s hs
    · rw [if_neg hqp] at hs ⊢
      exact inv.fwd q hq s hs
  · intro q hq n hn
    have hold := inv.bwd q hq n hn
    show q.1 ∈ ((alookup (r.subscriptions.map fun p =>
        if p.1 ∈ r.pending then (p.1, clearSub p.2) else p) n).map
          Subscription.sockets).getD []
    rw [alookup_tick_subs]
    rcases hl : alookup r.subscriptions n with _ | sub
    · rw [socketsOf, hl] at hold
      simp at hold
    · rw [socketsOf_some hl] at hold
      by_cases hp : n ∈ r.pending <;> simp [hp, clearSub_sockets, hold]
  · exact List.nodup_nil
  · intro n hn
    exact absurd hn (List.not_mem_nil n)
  · exact inv.closeNodup
  · exact inv.closeFwd
  · exact inv.closeBwd

/-- Iterated unsubscription preserves the registry invariant. -/
theorem regInv_unsubscribeList (socket : Nat) (l : List Str) :
    ∀ {r : Registry}, RegInv r → RegInv (unsubscribeList socket r l) := by
  induction l with
  | nil => intro r inv; exact inv
  | cons n rest ih =>
    intro r inv
    exact ih (regInv_unsubscribe inv n socket)

/-- The socket close handler preserves the registry invariant. -/
theorem regInv_onSocketClose {r : Registry} (inv : RegInv r) (socket : Nat) :
    RegInv (r.onSocketClose socket) :=
  regInv_unsubscribeList socket _ inv

/-- The registry membership indices agree: a socket is recorded under a
name exactly when the name is recorded under the socket. -/
theorem regInv_mem_iff {r : Registry} (inv : RegInv r) (n : Str) (s : Nat) :
    s ∈ socketsOf r n ↔ n ∈ namesOf r s := by
  constructor
  · intro h
    rcases hl : alookup r.subscriptions n with _ | sub
    · rw [socketsOf, hl] at h
      simp at h
    · rw [socketsOf_some hl] at h
      exact inv.fwd _ (mem_of_alookup hl) s h
  · intro h
    exact namesOf_bwd inv s n h

/-- C9: invariant of the SubscriptionRegistry preserved by `subscribe`,
`unsubscribe` and the socket close handler — for every socket `s` and name
`n`, `s` is in the socket set stored for `n` exactly when `n` is in the
name set stored for `s`; `RegInv` additionally records the consequences
maintained by the three operations: a name whose socket set empties is
removed from the subscription map and from the pending set
(`socketsNonempty`, `pendingSub`), and a socket whose name set empties is
removed from the reverse index with its close listener detached
(`nameListsNonempty`, `closeFwd`, `closeBwd`). -/
theorem C9_registry_inverse_index_invariant {r : Registry} (inv : RegInv r) :
    (∀ n s, s ∈ socketsOf r n ↔ n ∈ namesOf r s) ∧
    (∀ name socket, RegInv (r.subscribe name socket).1) ∧
    (∀ name socket, RegInv (r.unsubscribe name socket).1) ∧
    (∀ socket, RegInv (r.onSocketClose socket)) :=
  ⟨fun n s => regInv_mem_iff inv n s,
   fun name socket => regInv_subscribe inv name socket,
   fun name socket => regInv_unsubscribe inv name socket,
   fun socket => regInv_onSocketClose inv socket⟩

/-- Witness for C9 at a concrete two-socket registry. -/
theorem C9_witness :
    (∀ n s, s ∈ socketsOf (Registry.mk
        [( [ 'a' ], Subscription.mk [] [] [7, 8] ), ( [ 'b' ], Subscription.mk [] [] [8] )]
        [(7, [ [ 'a' ] ]), (8, [ [ 'a' ], [ 'b' ] ])] [ [ 'a' ] ] [7, 8]) n ↔
          n ∈ namesOf (Registry.mk
        [( [ 'a' ], Subscription.mk [] [] [7, 8] ), ( [ 'b' ], Subscription.mk [] [] [8] )]
        [(7, [ [ 'a' ] ]), (8, [ [ 'a' ], [ 'b' ] ])] [ [ 'a' ] ] [7, 8]) s) ∧
    (∀ name socket, RegInv ((Registry.mk
        [( [ 'a' ], Subscription.mk [] [] [7, 8] ), ( [ 'b' ], Subscription.mk [] [] [8] )]
        [(7, [ [ 'a' ] ]), (8, [ [ 'a' ], [ 'b' ] ])] [ [ 'a' ] ] [7, 8]).subscribe name socket).1) ∧
    (∀ name socket, RegInv ((Registry.mk
        [( [ 'a' ], Subscription.mk [] [] [7, 8] ), ( [ 'b' ], Subscription.mk [] [] [8] )]
        [(7, [ [ 'a' ] ]), (8, [ [ 'a' ], [ 'b' ] ])] [ [ 'a' ] ] [7, 8]).unsubscribe name socket).1) ∧
    (∀ socket, RegInv ((Registry.mk
        [( [ 'a' ], Subscription.mk [] [] [7, 8] ), ( [ 'b' ], Subscription.mk [] [] [8] )]
        [(7, [ [ 'a' ] ]), (8, [ [ 'a' ], [ 'b' ] ])] [ [ 'a' ] ] [7, 8]).onSocketClose socket)) :=
  C9_registry_inverse_index_invariant
    (RegInv.mk (by decide) (by decide) (by decide) (by decide) (by decide)
      (by decide) (by decide) (by decide) (by decide) (by decide) (by decide)
      (by decide) (by decide))

/-! ## Gap splicing: the broadcast loop equals range removal -/

theorem jsSubstring_of_le {s : Str} {a b : Nat} (hab : a ≤ b) (hb : b ≤ s.length) :
    jsSubstring s a b = (s.drop a).take (b - a) := by
  have ha : a ≤ s.length := hab.trans hb
  simp only [jsSubstring]
  rw [min_eq_left ha, min_eq_left hb, min_eq_left hab, max_eq_right hab]

theorem jsSubstring_to_length (s : Str) (lo : Nat) :
    jsSubstring s lo s.length = s.drop lo := by
  by_cases hlo : lo ≤ s.length
  · rw [jsSubstring_of_le hlo le_rfl]
    refine List.take_of_length_le ?_
    rw [List.length_drop]
  · have hge : s.length ≤ lo := le_of_not_le hlo
    have hmin : min lo s.length = s.length := min_eq_right hge
    simp only [jsSubstring]
    rw [hmin, min_self, min_self, max_self, Nat.sub_self]
    rw [List.take_zero, List.drop_eq_nil_of_le hge]

theorem spliceGo_eq_withoutRanges (shared : Str) :
    ∀ (gaps : List Nat) (lo : Nat), gapsOk shared.length lo gaps = true →
      spliceGo shared lo gaps = withoutRanges shared lo gaps
  | [], lo, _ => by
    show jsSubstring shared lo shared.length = shared.drop lo
    exact jsSubstring_to_length shared lo
  | [a], lo, h => by
    simp [gapsOk] at h
  | a :: b :: rest, lo, h => by
    simp only [gapsOk, Bool.and_eq_true, decide_eq_true_eq] at h
    obtain ⟨⟨⟨hloa, hab⟩, hblen⟩, hrest⟩ := h
    show jsSubstring shared lo a ++ spliceGo shared b rest =
      (shared.drop lo).take (a - lo) ++ withoutRanges shared b rest
    rw [jsSubstring_of_le hloa (hab.trans hblen)]
    rw [spliceGo_eq_withoutRanges shared rest b hrest]

theorem spliceMessage_eq_withoutRanges (shared : Str) (gaps : List Nat)
    (hne : gaps ≠ []) (hok : gapsOk shared.length 0 gaps = true) :
    spliceMessage shared gaps = withoutRanges shared 0 gaps := by
  match gaps with
  | [] => exact absurd rfl hne
  | [a] => simp [gapsOk] at hok
  | a :: b :: rest =>
    simp only [gapsOk, Bool.and_eq_true, decide_eq_true_eq] at hok
    obtain ⟨⟨⟨_, hab⟩, hblen⟩, hrest⟩ := hok
    show jsSubstring shared 0 a ++ spliceGo shared b rest =
      (shared.drop 0).take (a - 0) ++ withoutRanges shared b rest
    rw [jsSubstring_of_le (Nat.zero_le a) (hab.trans hblen)]
    rw [spliceGo_eq_withoutRanges shared rest b hrest]

theorem flatMap_congr {α β : Type} {l : List α} {f g : α → List β}
    (h : ∀ a ∈ l, f a = g a) : l.flatMap f = l.flatMap g := by
  induction l with
  | nil => rfl
  | cons a rest ih =>
    simp only [List.flatMap_cons]
    rw [h a (List.mem_cons_self a rest), ih fun x hx => h x (List.mem_cons_of_mem a hx)]

theorem subSends_eq_spec {name : Str} {sub : Subscription} (hwf : SubWF sub) :
    subSends name sub = subSendsSpec name sub := by
  unfold subSends subSendsSpec
  congr 1
  refine List.map_congr_left ?_
  intro sg hsg
  obtain ⟨hne, hok⟩ := hwf sg hsg
  rw [spliceMessage_eq_withoutRanges sub.sharedMessages sg.2 hne hok]

/-- C2: on every broadcast tick, each socket recorded in `uniqueSenders`
receives the shared buffer with its own recorded `[start, stop[` ranges
spliced out, every other subscribed socket receives the full shared
(prepared) buffer — the delivery list is exactly `tickSendsSpec`, whose
per-sender payload is the specification-side `withoutRanges` — and after
the tick every flushed subscription has an empty `sharedMessages` and an
empty `uniqueSenders` map, and the pending set is empty. -/
theorem C2_broadcast_tick_deliveries {r : Registry} (hwf : RegWF r) :
    r.onBroadcastTimeout.2 = tickSendsSpec r ∧
    (∀ name ∈ r.pending, ∀ sub, alookup r.subscriptions name = some sub →
      alookup r.onBroadcastTimeout.1.subscriptions name = some (clearSub sub)) ∧
    r.onBroadcastTimeout.1.pending = [] := by
  obtain ⟨inv, hsubwf⟩ := hwf
  refine ⟨?_, ?_, rfl⟩
  · show (r.pending.flatMap fun n =>
      match alookup r.subscriptions n with
      | some sub => subSends n sub
      | none => []) = tickSendsSpec r
    unfold tickSendsSpec
    refine flatMap_congr ?_
    intro n _
    rcases hl : alookup r.subscriptions n with _ | sub
    · rfl
    · show subSends n sub = subSendsSpec n sub
      exact subSends_eq_spec (hsubwf _ (mem_of_alookup hl))
  · intro name hname sub hsub
    show alookup (r.subscriptions.map fun p =>
        if p.1 ∈ r.pending then (p.1, clearSub p.2) else p) name = some (clearSub sub)
    rw [alookup_tick_subs, hsub]
    simp [hname]

/-- Witness for C2 at a concrete registry with one pending subscription,
one unique sender with the gap `[0, 2[`, and one plain subscriber. -/
theorem C2_witness :
    (Registry.mk
        [( [ 'a' ], Subscription.mk [ 'p', 'q', 'r' ] [(7, [0, 2])] [7, 8] )]
        [(7, [ [ 'a' ] ]), (8, [ [ 'a' ] ])] [ [ 'a' ] ] [7, 8]).onBroadcastTimeout.2 =
      tickSendsSpec (Registry.mk
        [( [ 'a' ], Subscription.mk [ 'p', 'q', 'r' ] [(7, [0, 2])] [7, 8] )]
        [(7, [ [ 'a' ] ]), (8, [ [ 'a' ] ])] [ [ 'a' ] ] [7, 8]) ∧
    (∀ name ∈ (Registry.mk
        [( [ 'a' ], Subscription.mk [ 'p', 'q', 'r' ] [(7, [0, 2])] [7, 8] )]
        [(7, [ [ 'a' ] ]), (8, [ [ 'a' ] ])] [ [ 'a' ] ] [7, 8]).pending,
      ∀ sub, alookup (Registry.mk
        [( [ 'a' ], Subscription.mk [ 'p', 'q', 'r' ] [(7, [0, 2])] [7, 8] )]
        [(7, [ [ 'a' ] ]), (8, [ [ 'a' ] ])] [ [ 'a' ] ] [7, 8]).subscriptions name = some sub →
      alookup (Registry.mk
        [( [ 'a' ], Subscription.mk [ 'p', 'q', 'r' ] [(7, [0, 2])] [7, 8] )]
        [(7, [ [ 'a' ] ]), (8, [ [ 'a' ] ])] [ [ 'a' ] ] [7, 8]).onBroadcastTimeout.1.subscriptions
          name = some (clearSub sub)) ∧
    (Registry.mk
        [( [ 'a' ], Subscription.mk [ 'p', 'q', 'r' ] [(7, [0, 2])] [7, 8] )]
        [(7, [ [ 'a' ] ]), (8, [ [ 'a' ] ])] [ [ 'a' ] ] [7, 8]).onBroadcastTimeout.1.pending = [] :=
  C2_broadcast_tick_deliveries
    ⟨RegInv.mk (by decide) (by decide) (by decide) (by decide) (by decide)
        (by decide) (by decide) (by decide) (by decide) (by decide) (by decide)
        (by decide) (by decide),
     by decide⟩

/-! ## Marker noninterference: deleted buffers are never delivered -/

theorem mem_aset_weak {α β : Type} [DecidableEq α] {l : List (α × β)} {k : α}
    {v : β} {p : α × β} (h : p ∈ aset l k v) : p = (k, v) ∨ p ∈ l := by
  induction l with
  | nil => simpa [aset] using h
  | cons q rest ih =>
    obtain ⟨a, b⟩ := q
    by_cases ha : a = k
    · subst ha
      replace h : p ∈ (a, v) :: rest := by simpa [aset] using h
      rcases List.mem_cons.mp h with rfl | h1
      · exact Or.inl rfl
      · exact Or.inr (List.mem_cons_of_mem _ h1)
    · replace h : p ∈ (a, b) :: aset rest k v := by simpa [aset, ha] using h
      rcases List.mem_cons.mp h with rfl | h1
      · exact Or.inr (List.mem_cons_self _ _)
      · rcases ih h1 with h2 | h2
        · exact Or.inl h2
        · exact Or.inr (List.mem_cons_of_mem _ h2)

theorem mem_aerase_weak {α β : Type} [DecidableEq α] {l : List (α × β)} {k : α}
    {p : α × β} (h : p ∈ aerase l k) : p ∈ l := by
  induction l with
  | nil => simpa [aerase] using h
  | cons q rest ih =>
    obtain ⟨a, b⟩ := q
    by_cases ha : a = k
    · subst ha
      replace h : p ∈ rest := by simpa [aerase] using h
      exact List.mem_cons_of_mem _ h
    · replace h : p ∈ (a, b) :: aerase rest k := by simpa [aerase, ha] using h
      rcases List.mem_cons.mp h with rfl | h1
      · exact List.mem_cons_self _ _
      · exact List.mem_cons_of_mem _ (ih h1)

theorem mem_of_mem_jsSubstring {c : Char} {s : Str} {a b : Nat}
    (h : c ∈ jsSubstring s a b) : c ∈ s := by
  simp only [jsSubstring] at h
  exact List.drop_subset _ _ (List.take_subset _ _ h)

theorem mem_of_mem_spliceGo {c : Char} (shared : Str) :
    ∀ (gaps : List Nat) (lo : Nat), c ∈ spliceGo shared lo gaps → c ∈ shared
  | [], lo, h => mem_of_mem_jsSubstring h
  | [a], lo, h => by
    rcases List.mem_append.mp h with h1 | h1 <;> exact mem_of_mem_jsSubstring h1
  | a :: b :: rest, lo, h => by
    rcases List.mem_append.mp h with h1 | h1
    · exact mem_of_mem_jsSubstring h1
    · exact mem_of_mem_spliceGo shared rest b h1

theorem mem_of_mem_spliceMessage {c : Char} {shared : Str} {gaps : List Nat}
    (h : c ∈ spliceMessage shared gaps) : c ∈ shared := by
  match gaps with
  | [] =>
    rcases List.mem_append.mp h with h1 | h1 <;> exact mem_of_mem_jsSubstring h1
  | [a] =>
    rcases List.mem_append.mp h with h1 | h1 <;> exact mem_of_mem_jsSubstring h1
  | a :: b :: rest =>
    rcases List.mem_append.mp h with h1 | h1
    · exact mem_of_mem_jsSubstring h1
    · exact mem_of_mem_spliceGo shared rest b h1

theorem tick_outputs_charFree {c : Char} {r : Registry} (hf : stateCharFree c r) :
    ∀ d ∈ r.onBroadcastTimeout.2, c ∉ d.payload := by
  intro d hd
  replace hd : d ∈ r.pending.flatMap fun n =>
      match alookup r.subscriptions n with
      | some sub => subSends n sub
      | none => [] := hd
  rcases List.mem_flatMap.mp hd with ⟨n, _, hdn⟩
  rcases hl : alookup r.subscriptions n with _ | sub
  · rw [hl] at hdn
    exact absurd hdn (List.not_mem_nil d)
  rw [hl] at hdn
  have hsh : c ∉ sub.sharedMessages := hf _ (mem_of_alookup hl)
  rcases List.mem_append.mp hdn with h1 | h1
  · rcases List.mem_map.mp h1 with ⟨sg, _, rfl⟩
    intro hc
    exact hsh (mem_of_mem_spliceMessage hc)
  · rcases List.mem_map.mp h1 with ⟨s, _, rfl⟩
    exact hsh

theorem stateCharFree_subscribe {c : Char} {r : Registry} (hf : stateCharFree c r)
    (name : Str) (socket : Nat) : stateCharFree c (r.subscribe name socket).1 := by
  by_cases hmem : socket ∈ ((alookup r.subscriptions name).getD emptySub).sockets
  · rw [subscribe_of_mem hmem]
    exact hf
  rw [subscribe_of_not_mem hmem]
  intro p hp
  rcases mem_aset_weak hp with rfl | hpl
  · show c ∉ ((alookup r.subscriptions name).getD emptySub).sharedMessages
    rcases hl : alookup r.subscriptions name with _ | sub
    · simp [emptySub]
    · exact hf _ (mem_of_alookup hl)
  · exact hf p hpl

theorem stateCharFree_unsubscribe {c : Char} {r : Registry} (hf : stateCharFree c r)
    (name : Str) (socket : Nat) : stateCharFree c (r.unsubscribe name socket).1 := by
  rcases h : alookup r.subscriptions name with _ | sub
  · rw [unsubscribe_none socket h]
    exact hf
  by_cases h2 : socket ∈ sub.sockets
  swap
  · rw [unsubscribe_not_mem h h2]
    exact hf
  rw [unsubscribe_of_mem h h2]
  intro p hp
  replace hp : p ∈ (if sub.sockets.erase socket = [] then aerase r.subscriptions name
      else aset r.subscriptions name
        { sub with sockets := sub.sockets.erase socket,
                   uniqueSenders := aerase sub.uniqueSenders socket }) := hp
  by_cases hs0 : sub.sockets.erase socket = []
  · rw [if_pos hs0] at hp
    exact hf p (mem_aerase_weak hp)
  · rw [if_neg hs0] at hp
    rcases mem_aset_weak hp with rfl | hpl
    · show c ∉ sub.sharedMessages
      exact hf _ (mem_of_alookup h)
    · exact hf p hpl

theorem charFree_appendSep {c : Char} {msg : Str} (hm : c ∉ msg)
    (hsep : c ≠ msgSep) : c ∉ appendSep msg := by
  unfold appendSep
  split
  · exact hm
  · intro hc
    rcases List.mem_append.mp hc with h1 | h1
    · exact hm h1
    · rw [List.mem_singleton] at h1
      exact hsep h1

theorem stateCharFree_send {c : Char} {r : Registry} {name msg : Str}
    {sender : Option Nat} (hm : c ∉ msg) (hsep : c ≠ msgSep)
    (hf : stateCharFree c r) :
    stateCharFree c (r.sendToSubscribers name msg sender) := by
  by_cases hmsg : msg = []
  · rw [hmsg, send_empty]
    exact hf
  rcases h : alookup r.subscriptions name with _ | sub
  · rw [send_no_sub h]
    exact hf
  rw [send_some hmsg h]
  intro p hp
  rcases mem_aset_weak hp with rfl | hpl
  · show c ∉ (bufferFrame sub msg sender).sharedMessages
    have hshared : (bufferFrame sub msg sender).sharedMessages =
        sub.sharedMessages ++ appendSep msg := by
      cases sender <;> rfl
    rw [hshared]
    intro hc
    rcases List.mem_append.mp hc with h1 | h1
    · exact hf _ (mem_of_alookup h) h1
    · exact charFree_appendSep hm hsep h1
  · exact hf p hpl

theorem stateCharFree_tick {c : Char} {r : Registry} (hf : stateCharFree c r) :
    stateCharFree c r.onBroadcastTimeout.1 := by
  intro p hp
  replace hp : p ∈ r.subscriptions.map fun q =>
      if q.1 ∈ r.pending then (q.1, clearSub q.2) else q := hp
  rcases List.mem_map.mp hp with ⟨q, hq, rfl⟩
  by_cases hqp : q.1 ∈ r.pending
  · rw [if_pos hqp]
    show c ∉ ([] : Str)
    simp
  · rw [if_neg hqp]
    exact hf q hq

theorem stateCharFree_unsubList {c : Char} (socket : Nat) :
    ∀ (l : List Str) {r : Registry}, stateCharFree c r →
      stateCharFree c (unsubscribeList socket r l)
  | [], _, hf => hf
  | n :: rest, _, hf =>
    stateCharFree_unsubList socket rest (stateCharFree_unsubscribe hf n socket)

theorem stateCharFree_close {c : Char} {r : Registry} (hf : stateCharFree c r)
    (socket : Nat) : stateCharFree c (r.onSocketClose socket) :=
  stateCharFree_unsubList socket _ hf

/-- Marker noninterference of whole runs: from a marker-free state, a run
whose sends avoid the marker never delivers a payload containing it. -/
theorem rrun_charFree {c : Char} (hsep : c ≠ msgSep) :
    ∀ (ops : List ROp) {r : Registry}, stateCharFree c r →
      (∀ op ∈ ops, opAvoids c op = true) →
      (∀ d ∈ (rrun r ops).2, c ∉ d.payload) ∧ stateCharFree c (rrun r ops).1 := by
  intro ops
  induction ops with
  | nil =>
    intro r hf _
    exact ⟨fun d hd => absurd hd (List.not_mem_nil d), hf⟩
  | cons op rest ih =>
    intro r hf hops
    have hop := hops op (List.mem_cons_self op rest)
    have hrest : ∀ o ∈ rest, opAvoids c o = true :=
      fun o ho => hops o (List.mem_cons_of_mem op ho)
    have hstep : (∀ d ∈ (rstep r op).2, c ∉ d.payload) ∧
        stateCharFree c (rstep r op).1 := by
      cases op with
      | sub n s =>
        exact ⟨fun d hd => absurd hd (List.not_mem_nil d),
          stateCharFree_subscribe hf n s⟩
      | unsub n s =>
        exact ⟨fun d hd => absurd hd (List.not_mem_nil d),
          stateCharFree_unsubscribe hf n s⟩
      | send n m sd =>
        have hm : c ∉ m := by
          simp only [opAvoids, Bool.not_eq_eq_eq_not, Bool.not_true] at hop
          exact of_decide_eq_false hop
        exact ⟨fun d hd => absurd hd (List.not_mem_nil d),
          stateCharFree_send hm hsep hf⟩
      | close s =>
        exact ⟨fun d hd => absurd hd (List.not_mem_nil d),
          stateCharFree_close hf s⟩
      | tick =>
        exact ⟨tick_outputs_charFree hf, stateCharFree_tick hf⟩
    have hrec := ih hstep.2 hrest
    refine ⟨?_, hrec.2⟩
    intro d hd
    replace hd : d ∈ (rstep r op).2 ++ (rrun (rstep r op).1 rest).2 := hd
    rcases List.mem_append.mp hd with h1 | h1
    · exact hstep.1 d h1
    · exact hrec.1 d h1

theorem unsub_lookup_other {r : Registry} {n2 name : Str} {socket : Nat}
    (hne : name ≠ n2) :
    alookup (r.unsubscribe n2 socket).1.subscriptions name =
      alookup r.subscriptions name := by
  rcases h : alookup r.subscriptions n2 with _ | sub
  · rw [unsubscribe_none socket h]
  by_cases h2 : socket ∈ sub.sockets
  swap
  · rw [unsubscribe_not_mem h h2]
  rw [unsubscribe_of_mem h h2]
  show alookup (if sub.sockets.erase socket = [] then aerase r.subscriptions n2
      else aset r.subscriptions n2
        { sub with sockets := sub.sockets.erase socket,
                   uniqueSenders := aerase sub.uniqueSenders socket }) name = _
  by_cases hs0 : sub.sockets.erase socket = []
  · rw [if_pos hs0]
    exact alookup_aerase_ne _ _ _ hne
  · rw [if_neg hs0]
    exact alookup_aset_ne _ _ _ _ hne

theorem unsub_pending_not_mem {r : Registry} {name n2 : Str} {socket : Nat}
    (hnp : name ∉ r.pending) : name ∉ (r.unsubscribe n2 socket).1.pending := by
  rcases h : alookup r.subscriptions n2 with _ | sub
  · rw [unsubscribe_none socket h]
    exact hnp
  by_cases h2 : socket ∈ sub.sockets
  swap
  · rw [unsubscribe_not_mem h h2]
    exact hnp
  rw [unsubscribe_of_mem h h2]
  show name ∉ (if sub.sockets.erase socket = [] then r.pending.erase n2 else r.pending)
  by_cases hs0 : sub.sockets.erase socket = []
  · rw [if_pos hs0]
    intro hc
    exact hnp (List.mem_of_mem_erase hc)
  · rw [if_neg hs0]
    exact hnp

theorem unsub_preserves_no_sub {r : Registry} {name n2 : Str} {socket : Nat}
    (h0 : alookup r.subscriptions name = none) :
    alookup (r.unsubscribe n2 socket).1.subscriptions name = none := by
  by_cases hne : name = n2
  · subst hne
    rw [unsubscribe_none socket h0]
    exact h0
  · rw [unsub_lookup_other hne]
    exact h0

theorem unsub_last_deletes {r : Registry} (inv : RegInv r) {name : Str}
    {sub : Subscription} {socket : Nat}
    (h : alookup r.subscriptions name = some sub) (hone : sub.sockets = [socket]) :
    alookup (r.unsubscribe name socket).1.subscriptions name = none ∧
      name ∉ (r.unsubscribe name socket).1.pending := by
  have h2 : socket ∈ sub.sockets := by
    rw [hone]
    exact List.mem_cons_self socket []
  rw [unsubscribe_of_mem h h2]
  have hs0 : sub.sockets.erase socket = [] := by
    rw [hone]
    simp
  constructor
  · show alookup (if sub.sockets.erase socket = [] then aerase r.subscriptions name
        else aset r.subscriptions name
          { sub with sockets := sub.sockets.erase socket,
                     uniqueSenders := aerase sub.uniqueSenders socket }) name = none
    rw [if_pos hs0]
    exact alookup_aerase_self inv.subsKeysNodup
  · show name ∉ (if sub.sockets.erase socket = [] then r.pending.erase name
        else r.pending)
    rw [if_pos hs0]
    exact inv.pendingNodup.not_mem_erase

theorem unsubList_preserves_deleted {name : Str} (socket : Nat) :
    ∀ (l : List Str) {r : Registry},
      alookup r.subscriptions name = none → name ∉ r.pending →
      alookup (unsubscribeList socket r l).subscriptions name = none ∧
        name ∉ (unsubscribeList socket r l).pending
  | [], _, h0, hp0 => ⟨h0, hp0⟩
  | _ :: rest, _, h0, hp0 =>
    unsubList_preserves_deleted socket rest (unsub_preserves_no_sub h0)
      (unsub_pending_not_mem hp0)

theorem unsubList_deletes {name : Str} {socket : Nat} :
    ∀ (l : List Str) {r : Registry}, RegInv r → name ∈ l →
      ∀ sub, alookup r.subscriptions name = some sub → sub.sockets = [socket] →
      alookup (unsubscribeList socket r l).subscriptions name = none ∧
        name ∉ (unsubscribeList socket r l).pending := by
  intro l
  induction l with
  | nil =>
    intro r _ hmem sub _ _
    exact absurd hmem (List.not_mem_nil name)
  | cons n2 rest ih =>
    intro r inv hmem sub hsub hone
    by_cases hn2 : n2 = name
    · subst hn2
      have hdel := unsub_last_deletes inv hsub hone
      exact unsubList_preserves_deleted socket rest hdel.1 hdel.2
    · have hne : name ≠ n2 := fun e => hn2 e.symm
      have hlook : alookup (r.unsubscribe n2 socket).1.subscriptions name =
          some sub := by
        rw [unsub_lookup_other hne]
        exact hsub
      have hmem2 : name ∈ rest := by
        rcases List.mem_cons.mp hmem with h1 | h1
        · exact absurd h1 hne
        · exact h1
      exact ih (regInv_unsubscribe inv n2 socket) hmem2 sub hlook hone

theorem unsub_shared_origin {r : Registry} {n2 : Str} {socket : Nat} :
    ∀ p ∈ (r.unsubscribe n2 socket).1.subscriptions,
      ∃ q ∈ r.subscriptions, q.1 = p.1 ∧ q.2.sharedMessages = p.2.sharedMessages := by
  intro p hp
  rcases h : alookup r.subscriptions n2 with _ | sub
  · rw [unsubscribe_none socket h] at hp
    exact ⟨p, hp, rfl, rfl⟩
  by_cases h2 : socket ∈ sub.sockets
  swap
  · rw [unsubscribe_not_mem h h2] at hp
    exact ⟨p, hp, rfl, rfl⟩
  rw [unsubscribe_of_mem h h2] at hp
  replace hp : p ∈ (if sub.sockets.erase socket = [] then aerase r.subscriptions n2
      else aset r.subscriptions n2
        { sub with sockets := sub.sockets.erase socket,
                   uniqueSenders := aerase sub.uniqueSenders socket }) := hp
  by_cases hs0 : sub.sockets.erase socket = []
  · rw [if_pos hs0] at hp
    exact ⟨p, mem_aerase_weak hp, rfl, rfl⟩
  · rw [if_neg hs0] at hp
    rcases mem_aset_weak hp with rfl | hpl
    · exact ⟨(n2, sub), mem_of_alookup h, rfl, rfl⟩
    · exact ⟨p, hpl, rfl, rfl⟩

theorem unsubList_shared_origin (socket : Nat) :
    ∀ (l : List Str) {r : Registry},
      ∀ p ∈ (unsubscribeList socket r l).subscriptions,
        ∃ q ∈ r.subscriptions, q.1 = p.1 ∧ q.2.sharedMessages = p.2.sharedMessages := by
  intro l
  induction l with
  | nil => exact fun p hp => ⟨p, hp, rfl, rfl⟩
  | cons n2 rest ih =>
    intro r p hp
    obtain ⟨q1, hq1, hk1, hs1⟩ := ih p hp
    obtain ⟨q, hq, hk, hs⟩ := unsub_shared_origin q1 hq1
    exact ⟨q, hq, hk.trans hk1, hs.trans hs1⟩

theorem post_unsub_charFree {r : Registry} (inv : RegInv r) {name : Str}
    {sub : Subscription} {socket : Nat} {c : Char}
    (h : alookup r.subscriptions name = some sub) (hone : sub.sockets = [socket])
    (hothers : ∀ p ∈ r.subscriptions, p.1 ≠ name → c ∉ p.2.sharedMessages) :
    stateCharFree c (r.unsubscribe name socket).1 := by
  have h2 : socket ∈ sub.sockets := by
    rw [hone]
    exact List.mem_cons_self socket []
  rw [unsubscribe_of_mem h h2]
  have hs0 : sub.sockets.erase socket = [] := by
    rw [hone]
    simp
  intro p hp
  replace hp : p ∈ (if sub.sockets.erase socket = [] then aerase r.subscriptions name
      else aset r.subscriptions name
        { sub with sockets := sub.sockets.erase socket,
                   uniqueSenders := aerase sub.uniqueSenders socket }) := hp
  rw [if_pos hs0] at hp
  obtain ⟨hpl, hpne⟩ := (mem_aerase_iff inv.subsKeysNodup).mp hp
  exact hothers p hpl hpne

theorem post_close_charFree {r : Registry} (inv : RegInv r) {name : Str}
    {sub : Subscription} {socket : Nat} {c : Char}
    (h : alookup r.subscriptions name = some sub) (hone : sub.sockets = [socket])
    (hothers : ∀ p ∈ r.subscriptions, p.1 ≠ name → c ∉ p.2.sharedMessages) :
    stateCharFree c (r.onSocketClose socket) := by
  have hnamemem : name ∈ namesOf r socket :=
    inv.fwd _ (mem_of_alookup h) socket (by rw [hone]; exact List.mem_cons_self socket [])
  have hdel := unsubList_deletes (namesOf r socket) inv hnamemem sub h hone
  intro p hp
  obtain ⟨q, hq, hk, hs⟩ := unsubList_shared_origin socket (namesOf r socket) p hp
  by_cases hqn : q.1 = name
  · exfalso
    have hpk : p.1 = name := hk ▸ hqn
    have hkeys : name ∈ (r.onSocketClose socket).subscriptions.map Prod.fst :=
      hpk ▸ List.mem_map_of_mem Prod.fst hp
    exact (alookup_eq_none_iff.mp hdel.1) hkeys
  · rw [← hs]
    exact hothers q hq hqn

/-- C10: when frames are buffered for a name (its subscription is pending
with a nonempty shared buffer, marked by a character `c` occurring in no
other buffer) and its last subscriber then unsubscribes — directly or via
socket close — before the next flush, the subscription is deleted and
removed from the pending set, and no later run of registry operations
avoiding `c` ever delivers a payload containing `c`: the buffered frames
are never delivered to the departed subscriber nor to any later
subscriber. -/
theorem C10_unsubscribed_buffer_never_delivered {r : Registry} (inv : RegInv r)
    {name : Str} {socket : Nat} {sub : Subscription} {c : Char}
    (hsub : alookup r.subscriptions name = some sub)
    (hone : sub.sockets = [socket])
    (hpend : name ∈ r.pending)
    (hmark : c ∈ sub.sharedMessages)
    (hsep : c ≠ msgSep)
    (hothers : ∀ p ∈ r.subscriptions, p.1 ≠ name → c ∉ p.2.sharedMessages) :
    (alookup (r.unsubscribe name socket).1.subscriptions name = none ∧
      name ∉ (r.unsubscribe name socket).1.pending) ∧
    (alookup (r.onSocketClose socket).subscriptions name = none ∧
      name ∉ (r.onSocketClose socket).pending) ∧
    (∀ ops, (∀ op ∈ ops, opAvoids c op = true) →
      ∀ d ∈ (rrun (r.unsubscribe name socket).1 ops).2, c ∉ d.payload) ∧
    (∀ ops, (∀ op ∈ ops, opAvoids c op = true) →
      ∀ d ∈ (rrun (r.onSocketClose socket) ops).2, c ∉ d.payload) := by
  have hnamemem : name ∈ namesOf r socket :=
    inv.fwd _ (mem_of_alookup hsub) socket
      (by rw [hone]; exact List.mem_cons_self socket [])
  refine ⟨unsub_last_deletes inv hsub hone,
    unsubList_deletes (namesOf r socket) inv hnamemem sub hsub hone, ?_, ?_⟩
  · intro ops hops
    exact (rrun_charFree hsep ops (post_unsub_charFree inv hsub hone hothers) hops).1
  · intro ops hops
    exact (rrun_charFree hsep ops (post_close_charFree inv hsub hone hothers) hops).1

/-- Witness for C10: a registry with a pending marked buffer for one name
and an unrelated clean subscription, flushed after the unsubscription. -/
theorem C10_witness :
    (alookup ((Registry.mk
        [( [ 'a' ], Subscription.mk [ 'z' ] [] [7] ), ( [ 'b' ], Subscription.mk [] [] [8] )]
        [(7, [ [ 'a' ] ]), (8, [ [ 'b' ] ])] [ [ 'a' ] ] [7, 8]).unsubscribe
          [ 'a' ] 7).1.subscriptions [ 'a' ] = none ∧
      [ 'a' ] ∉ ((Registry.mk
        [( [ 'a' ], Subscription.mk [ 'z' ] [] [7] ), ( [ 'b' ], Subscription.mk [] [] [8] )]
        [(7, [ [ 'a' ] ]), (8, [ [ 'b' ] ])] [ [ 'a' ] ] [7, 8]).unsubscribe
          [ 'a' ] 7).1.pending) ∧
    (alookup ((Registry.mk
        [( [ 'a' ], Subscription.mk [ 'z' ] [] [7] ), ( [ 'b' ], Subscription.mk [] [] [8] )]
        [(7, [ [ 'a' ] ]), (8, [ [ 'b' ] ])] [ [ 'a' ] ] [7, 8]).onSocketClose
          7).subscriptions [ 'a' ] = none ∧
      [ 'a' ] ∉ ((Registry.mk
        [( [ 'a' ], Subscription.mk [ 'z' ] [] [7] ), ( [ 'b' ], Subscription.mk [] [] [8] )]
        [(7, [ [ 'a' ] ]), (8, [ [ 'b' ] ])] [ [ 'a' ] ] [7, 8]).onSocketClose 7).pending) ∧
    (∀ ops, (∀ op ∈ ops, opAvoids 'z' op = true) →
      ∀ d ∈ (rrun ((Registry.mk
        [( [ 'a' ], Subscription.mk [ 'z' ] [] [7] ), ( [ 'b' ], Subscription.mk [] [] [8] )]
        [(7, [ [ 'a' ] ]), (8, [ [ 'b' ] ])] [ [ 'a' ] ] [7, 8]).unsubscribe
          [ 'a' ] 7).1 ops).2, 'z' ∉ d.payload) ∧
    (∀ ops, (∀ op ∈ ops, opAvoids 'z' op = true) →
      ∀ d ∈ (rrun ((Registry.mk
        [( [ 'a' ], Subscription.mk [ 'z' ] [] [7] ), ( [ 'b' ], Subscription.mk [] [] [8] )]
        [(7, [ [ 'a' ] ]), (8, [ [ 'b' ] ])] [ [ 'a' ] ] [7, 8]).onSocketClose 7) ops).2,
        'z' ∉ d.payload) :=
  @C10_unsubscribed_buffer_never_delivered
    (Registry.mk
      [( [ 'a' ], Subscription.mk [ 'z' ] [] [7] ), ( [ 'b' ], Subscription.mk [] [] [8] )]
      [(7, [ [ 'a' ] ]), (8, [ [ 'b' ] ])] [ [ 'a' ] ] [7, 8])
    (RegInv.mk (by decide) (by decide) (by decide) (by decide) (by decide)
      (by decide) (by decide) (by decide) (by decide) (by decide) (by decide)
      (by decide) (by decide))
    [ 'a' ] 7 (Subscription.mk [ 'z' ] [] [7]) 'z'
    (by decide) (by decide) (by decide) (by decide) (by decide) (by decide)

/-! ## Record cache lemmas and the cache-merge claims -/

theorem evictLoop_of_le {locked : List Str} {maxSize : Nat} {fuel : Nat}
    {es : List (Str × CacheEntry)} (h : es.length ≤ maxSize) :
    evictLoop locked maxSize fuel es = es := by
  cases fuel with
  | zero => rfl
  | succ n =>
    unfold evictLoop
    rw [if_pos h]

theorem length_aerase_of_mem {α β : Type} [DecidableEq α] {l : List (α × β)}
    {k : α} (h : k ∈ l.map Prod.fst) : (aerase l k).length + 1 = l.length := by
  induction l with
  | nil => simp at h
  | cons p rest ih =>
    obtain ⟨a, b⟩ := p
    by_cases ha : a = k
    · subst ha
      simp [aerase]
    · have hk : k ∈ rest.map Prod.fst := by
        simp only [List.map_cons, List.mem_cons] at h
        rcases h with h1 | h1
        · exact absurd h1.symm ha
        · exact h1
      simp only [aerase, if_neg ha, List.length_cons]
      rw [← ih hk]

theorem cache_get_set_self {c : RecordCache} {name : Str}
    (hmem : name ∈ c.entries.map Prod.fst) (hcap : c.entries.length ≤ c.max)
    (version message : Str) :
    (c.set name version message).get name = some (CacheEntry.mk version message) := by
  have hlen : ((name, CacheEntry.mk version message) :: aerase c.entries name).length
      ≤ c.max := by
    simp only [List.length_cons]
    rw [length_aerase_of_mem hmem]
    exact hcap
  show alookup (evictLoop c.locked c.max
      ((name, CacheEntry.mk version message) :: aerase c.entries name).length
      ((name, CacheEntry.mk version message) :: aerase c.entries name)) name =
    some (CacheEntry.mk version message)
  rw [evictLoop_of_le hlen]
  simp

theorem cache_get_set_self_fresh {c : RecordCache} {name : Str}
    (hcap : c.entries.length < c.max) (version message : Str) :
    (c.set name version message).get name = some (CacheEntry.mk version message) := by
  have hlen : ((name, CacheEntry.mk version message) :: aerase c.entries name).length
      ≤ c.max := by
    simp only [List.length_cons]
    have : (aerase c.entries name).length ≤ c.entries.length := by
      induction c.entries with
      | nil => simp [aerase]
      | cons p rest ih =>
        obtain ⟨a, b⟩ := p
        by_cases ha : a = name
        · subst ha
          simp [aerase]
        · simp only [aerase, if_neg ha, List.length_cons]
          omega
    omega
  show alookup (evictLoop c.locked c.max
      ((name, CacheEntry.mk version message) :: aerase c.entries name).length
      ((name, CacheEntry.mk version message) :: aerase c.entries name)) name =
    some (CacheEntry.mk version message)
  rw [evictLoop_of_le hlen]
  simp

theorem revOf_of_ne {a : Str} (h : a ≠ []) : revOf (some a) = splitRev a := by
  cases a with
  | nil => exact absurd rfl h
  | cons x xs => rfl

theorem isSameOrNewer_split {vp vn : Str} {an bn : Int} {atag btag : Str}
    (hvp : vp ≠ []) (hvn : vn ≠ [])
    (ha : splitRev vp = (some an, atag)) (hb : splitRev vn = (some bn, btag)) :
    (isSameOrNewer (some vp) (some vn) = true ↔
      (bn ≠ MAX_SAFE_INTEGER ∧ (an > bn ∨ (an = bn ∧ strGe atag btag = true)))) := by
  unfold isSameOrNewer
  rw [revOf_of_ne hvp, revOf_of_ne hvn, ha, hb]
  simp only [jsNeNum, jsGt, jsEqNum]
  simp [Bool.and_eq_true, Bool.or_eq_true, decide_eq_true_eq, and_assoc]

/-- C1 counterexample: with the stored version `INF-x` and the incoming
version `INF-a`, the claim condition (stored numeric part is INF, with the
stored tag above the incoming tag) holds, so the claim requires the stored
entry to win; the code instead replaces the entry, because `isSameOrNewer`
declares the incoming frame newer whenever the incoming numeric part is
`MAX_SAFE_INTEGER`. -/
theorem C1_counterexample :
    specPrevWins [ 'I', 'N', 'F', '-', 'x' ] [ 'I', 'N', 'F', '-', 'a' ] = true ∧
    isSameOrNewer (some [ 'I', 'N', 'F', '-', 'x' ]) (some [ 'I', 'N', 'F', '-', 'a' ]) = false ∧
    (rhBroadcast
      (RHState.mk
        (RecordCache.mk 8 [( [ 'f' ], CacheEntry.mk [ 'I', 'N', 'F', '-', 'x' ] [ 'm' ] )] [])
        emptyRegistry)
      [ 'f' ] [ 'I', 'N', 'F', '-', 'a' ] [ 'n' ] none).cache.get [ 'f' ] =
        some (CacheEntry.mk [ 'I', 'N', 'F', '-', 'a' ] [ 'n' ]) := by
  refine ⟨by decide, by decide, ?_⟩
  decide

/-- C1 (amended): in the cache-merge path `RecordHandler._broadcast`, for a
cached entry with parsed version `(an, atag)` and an incoming version with
parsed version `(bn, btag)`, the stored entry wins — the frame is dropped
and the state unchanged — exactly when the incoming numeric part is not
`MAX_SAFE_INTEGER` (`INF`) and `an > bn`, or `an = bn` with
`atag ≥ btag`; otherwise the entry is replaced by the incoming version and
frame and the frame is buffered to the subscribers excluding the sender.
In particular a stored `INF` version beats every non-INF update, but an
incoming INF-versioned update always replaces the stored entry. -/
theorem C1_cache_merge_amended {st : RHState} {name vp msg vn msg2 : Str}
    {sender : Option Nat} {an bn : Int} {atag btag : Str}
    (hprev : st.cache.get name = some (CacheEntry.mk vp msg))
    (hvp : vp ≠ []) (hvn : vn ≠ [])
    (ha : splitRev vp = (some an, atag)) (hb : splitRev vn = (some bn, btag))
    (hcap : st.cache.entries.length ≤ st.cache.max)
    (hmsg : msg2 ≠ msg) :
    ((bn ≠ MAX_SAFE_INTEGER ∧ (an > bn ∨ (an = bn ∧ strGe atag btag = true))) →
      rhBroadcast st name vn msg2 sender = st) ∧
    (¬ (bn ≠ MAX_SAFE_INTEGER ∧ (an > bn ∨ (an = bn ∧ strGe atag btag = true))) →
      (rhBroadcast st name vn msg2 sender).cache.get name =
          some (CacheEntry.mk vn msg2) ∧
        (rhBroadcast st name vn msg2 sender).reg =
          st.reg.sendToSubscribers name msg2 sender) ∧
    ((rhBroadcast st name vn msg2 sender).cache.get name =
        some (CacheEntry.mk vp msg) ↔
      (bn ≠ MAX_SAFE_INTEGER ∧ (an > bn ∨ (an = bn ∧ strGe atag btag = true)))) := by
  have hmem : name ∈ st.cache.entries.map Prod.fst := by
    rw [mem_keys_iff_isSome]
    unfold RecordCache.get at hprev
    rw [hprev]
    rfl
  have hiff := isSameOrNewer_split hvp hvn ha hb
  have hbr : rhBroadcast st name vn msg2 sender =
      if isSameOrNewer ((st.cache.get name).map CacheEntry.version) (some vn) = true
      then st
      else RHState.mk (st.cache.set name vn msg2)
        (st.reg.sendToSubscribers name msg2 sender) := by
    unfold rhBroadcast
    rcases h : isSameOrNewer ((st.cache.get name).map CacheEntry.version) (some vn) with _ | _
    · simp [h]
    · simp [h]
  rw [hprev] at hbr
  have hver : (some (CacheEntry.mk vp msg)).map CacheEntry.version = some vp := rfl
  rw [hver] at hbr
  constructor
  · intro hcond
    rw [hbr, if_pos (hiff.mpr hcond)]
  constructor
  · intro hcond
    have hfalse : ¬ isSameOrNewer (some vp) (some vn) = true := fun hc => hcond (hiff.mp hc)
    rw [hbr, if_neg hfalse]
    exact ⟨cache_get_set_self hmem hcap vn msg2, rfl⟩
  · constructor
    · intro hget
      by_contra hcond
      have hfalse : ¬ isSameOrNewer (some vp) (some vn) = true := fun hc => hcond (hiff.mp hc)
      rw [hbr, if_neg hfalse] at hget
      rw [cache_get_set_self hmem hcap vn msg2] at hget
      have : msg2 = msg := congrArg CacheEntry.message (Option.some_injective _ hget)
      exact hmsg this
    · intro hcond
      rw [hbr, if_pos (hiff.mpr hcond)]
      exact hprev

/-- Witness for the amended C1 at the concrete versions `5-aaa` (stored)
and `4-zzz` (incoming): the stored entry wins and the state is unchanged. -/
theorem C1_witness :
    ((4 : Int) ≠ MAX_SAFE_INTEGER ∧ ((5 : Int) > 4 ∨ ((5 : Int) = 4 ∧
        strGe [ 'a', 'a', 'a' ] [ 'z', 'z', 'z' ] = true))) ∧
    rhBroadcast
      (RHState.mk
        (RecordCache.mk 8 [( [ 'f' ], CacheEntry.mk
          [ '5', '-', 'a', 'a', 'a' ] [ 'm' ] )] [])
        emptyRegistry)
      [ 'f' ] [ '4', '-', 'z', 'z', 'z' ] [ 'n' ] none =
      RHState.mk
        (RecordCache.mk 8 [( [ 'f' ], CacheEntry.mk
          [ '5', '-', 'a', 'a', 'a' ] [ 'm' ] )] [])
        emptyRegistry := by
  refine ⟨by decide, ?_⟩
  exact (@C1_cache_merge_amended
    (RHState.mk
      (RecordCache.mk 8 [( [ 'f' ], CacheEntry.mk
        [ '5', '-', 'a', 'a', 'a' ] [ 'm' ] )] [])
      emptyRegistry)
    [ 'f' ] [ '5', '-', 'a', 'a', 'a' ] [ 'm' ] [ '4', '-', 'z', 'z', 'z' ] [ 'n' ] none
    5 4 [ 'a', 'a', 'a' ] [ 'z', 'z', 'z' ]
    (by decide) (by decide) (by decide) (by decide) (by decide) (by decide)
    (by decide)).1 (by decide)

/-! ## READ and UPDATE branches of the record handler -/

theorem lock_get (c : RecordCache) (n m : Str) : (c.lock n).get m = c.get m := rfl

theorem lockOrNot_get (st : RHState) (name : Str) (socket : Nat) (m : Str) :
    (match (st.reg.subscribe name socket).2 with
      | SubResult.added 1 => st.cache.lock name
      | _ => st.cache).get m = st.cache.get m := by
  rcases (st.reg.subscribe name socket).2 with n | _
  · rcases n with _ | n
    · rfl
    · rcases n with _ | n <;> rfl
  · rfl

theorem lockOrNot_entries (st : RHState) (name : Str) (socket : Nat) :
    (match (st.reg.subscribe name socket).2 with
      | SubResult.added 1 => st.cache.lock name
      | _ => st.cache).entries = st.cache.entries := by
  rcases (st.reg.subscribe name socket).2 with n | _
  · rcases n with _ | n
    · rfl
    · rcases n with _ | n <;> rfl
  · rfl

theorem lockOrNot_max (st : RHState) (name : Str) (socket : Nat) :
    (match (st.reg.subscribe name socket).2 with
      | SubResult.added 1 => st.cache.lock name
      | _ => st.cache).max = st.cache.max := by
  rcases (st.reg.subscribe name socket).2 with n | _
  · rcases n with _ | n
    · rfl
    · rcases n with _ | n <;> rfl
  · rfl

theorem subscribe_mem_sockets (r : Registry) (name : Str) (socket : Nat) :
    socket ∈ socketsOf (r.subscribe name socket).1 name := by
  by_cases hmem : socket ∈ ((alookup r.subscriptions name).getD emptySub).sockets
  · rw [subscribe_of_mem hmem]
    rw [← sub_sockets_eq r name]
    exact hmem
  · rw [subscribe_of_not_mem hmem]
    show socket ∈ socketsOf (Registry.mk _ _ _ _) name
    rw [socketsOf, alookup_aset_self]
    simp

theorem handleRead_reg (excl : Option (Str → Bool)) (st : RHState) (name : Str)
    (socket : Nat) :
    (handleRead excl st name socket).1.reg = (st.reg.subscribe name socket).1 := by
  simp only [handleRead]
  rw [lockOrNot_get]
  split
  · split <;> rfl
  · split <;> rfl

/-- C6 (amended): for every READ the socket ends up subscribed to the
name; when the cache holds a hydrated entry (nonempty raw message) that
raw message is sent to the socket and the cache entries are untouched;
when the cache holds the loading placeholder (empty raw message) nothing
further happens, deduplicating concurrent loads; when the name is absent
from the cache **and does not match the storage-exclusion regex** the
`("", "")` placeholder is inserted and a storage read is issued; the
storage callback logs `RECORD_LOAD_ERROR` on failure and feeds the loaded
record through the cache-merge path on success. -/
theorem C6_read_branch (excl : Option (Str → Bool)) (st : RHState) (name : Str)
    (socket : Nat) (rec : List Str) :
    (socket ∈ socketsOf (handleRead excl st name socket).1.reg name) ∧
    (∀ e, st.cache.get name = some e → e.message ≠ [] →
      (handleRead excl st name socket).2 = [Effect.sendNative socket e.message] ∧
      (handleRead excl st name socket).1.cache.entries = st.cache.entries) ∧
    (∀ e, st.cache.get name = some e → e.message = [] →
      (handleRead excl st name socket).2 = []) ∧
    (st.cache.get name = none → exclAllows excl name = true →
      (handleRead excl st name socket).2 = [Effect.storageGet name] ∧
      (st.cache.entries.length < st.cache.max →
        (handleRead excl st name socket).1.cache.get name =
          some (CacheEntry.mk [] []))) ∧
    ((onReadStorageResponse st true rec).2 =
      [Effect.logError ErrEvent.RECORD_LOAD_ERROR] ∧
     (onReadStorageResponse st true rec).1 = st) ∧
    ((onReadStorageResponse st false rec).1 =
      rhBroadcast st (rec.getD 0 []) (rec.getD 1 [])
        (getMsg TOPIC_RECORD ACTION_UPDATE rec) none) := by
  refine ⟨?_, ?_, ?_, ?_, ⟨rfl, rfl⟩, rfl⟩
  · rw [handleRead_reg]
    exact subscribe_mem_sockets st.reg name socket
  · intro e hget hne
    simp only [handleRead]
    rw [lockOrNot_get]
    split
    next record heq =>
      rw [hget] at heq
      have he2 : e = record := Option.some_injective _ heq
      subst he2
      rw [if_pos hne]
      exact ⟨rfl, lockOrNot_entries st name socket⟩
    next heq =>
      rw [hget] at heq
      exact absurd heq (by simp)
  · intro e hget he
    simp only [handleRead]
    rw [lockOrNot_get]
    split
    next record heq =>
      rw [hget] at heq
      have he2 : e = record := Option.some_injective _ heq
      subst he2
      rw [if_neg fun hh => hh he]
    next heq =>
      rw [hget] at heq
      exact absurd heq (by simp)
  · intro hnone hexcl
    simp only [handleRead]
    rw [lockOrNot_get]
    split
    next record heq =>
      rw [hnone] at heq
      exact absurd heq (by simp)
    next heq =>
      rw [if_pos hexcl]
      refine ⟨rfl, ?_⟩
      intro hcap
      show ((match (st.reg.subscribe name socket).2 with
        | SubResult.added 1 => st.cache.lock name
        | _ => st.cache).set name [] []).get name = some (CacheEntry.mk [] [])
      refine cache_get_set_self_fresh ?_ [] []
      rw [lockOrNot_entries, lockOrNot_max]
      exact hcap

/-- C6 counterexample: with a storage-exclusion regex matching the name
and the name absent from the cache, a READ issues no storage read and
inserts no placeholder, while the claim as stated requires both. -/
theorem C6_counterexample :
    (handleRead (some fun _ => true)
        (RHState.mk (RecordCache.mk 8 [] []) emptyRegistry) [ 'a' ] 7).2 = [] ∧
    (handleRead (some fun _ => true)
        (RHState.mk (RecordCache.mk 8 [] []) emptyRegistry) [ 'a' ] 7).1.cache.get
      [ 'a' ] = none := by
  exact ⟨rfl, rfl⟩

/-- Witness for the amended C6 at a concrete hydrated cache entry. -/
theorem C6_witness :
    (7 ∈ socketsOf (handleRead none
        (RHState.mk (RecordCache.mk 8 [( [ 'a' ], CacheEntry.mk [ '1', '-', 'x' ] [ 'm' ] )] [])
          emptyRegistry) [ 'a' ] 7).1.reg [ 'a' ]) ∧
    (∀ e, (RHState.mk (RecordCache.mk 8 [( [ 'a' ], CacheEntry.mk [ '1', '-', 'x' ] [ 'm' ] )] [])
          emptyRegistry).cache.get [ 'a' ] = some e → e.message ≠ [] →
      (handleRead none (RHState.mk (RecordCache.mk 8 [( [ 'a' ], CacheEntry.mk [ '1', '-', 'x' ] [ 'm' ] )] [])
          emptyRegistry) [ 'a' ] 7).2 = [Effect.sendNative 7 e.message] ∧
      (handleRead none (RHState.mk (RecordCache.mk 8 [( [ 'a' ], CacheEntry.mk [ '1', '-', 'x' ] [ 'm' ] )] [])
          emptyRegistry) [ 'a' ] 7).1.cache.entries =
        (RHState.mk (RecordCache.mk 8 [( [ 'a' ], CacheEntry.mk [ '1', '-', 'x' ] [ 'm' ] )] [])
          emptyRegistry).cache.entries) := by
  have h := C6_read_branch none
    (RHState.mk (RecordCache.mk 8 [( [ 'a' ], CacheEntry.mk [ '1', '-', 'x' ] [ 'm' ] )] [])
      emptyRegistry) [ 'a' ] 7 []
  exact ⟨h.1, h.2.1⟩

/-- C7: for every UPDATE, the storage write is issued exactly when the
numeric part of the version lies strictly between 0 and
`MAX_SAFE_INTEGER` and the name does not match the storage-exclusion
regex; a failing storage callback sends `RECORD_UPDATE_ERROR` back to the
original sender (and a succeeding one sends nothing); and independently of
the write the update goes through the cache-merge path with the sender
excluded. -/
theorem C7_update_branch (excl : Option (Str → Bool)) (st : RHState)
    (socket : Nat) (data : List Str) :
    ((Effect.storageSet data socket ∈ (handleUpdate excl st socket data).2) ↔
      ((∃ n : Int, (splitRev (data.getD 1 [])).1 = some n ∧ 0 < n ∧
          n < MAX_SAFE_INTEGER) ∧
        exclAllows excl (data.getD 0 []) = true)) ∧
    (onUpdateStorageResponse true data socket =
      [Effect.sendError socket ErrEvent.RECORD_UPDATE_ERROR data]) ∧
    (onUpdateStorageResponse false data socket = []) ∧
    ((handleUpdate excl st socket data).1 =
      rhBroadcast st (data.getD 0 []) (data.getD 1 [])
        (getMsg TOPIC_RECORD ACTION_UPDATE (data.take 3)) (some socket)) := by
  refine ⟨?_, rfl, rfl, rfl⟩
  have key : (Effect.storageSet data socket ∈ (handleUpdate excl st socket data).2) ↔
      (jsGt (splitRev (data.getD 1 [])).1 (some 0) &&
       jsLt (splitRev (data.getD 1 [])).1 (some MAX_SAFE_INTEGER) &&
       exclAllows excl (data.getD 0 [])) = true := by
    show Effect.storageSet data socket ∈
        (if (jsGt (splitRev (data.getD 1 [])).1 (some 0) &&
             jsLt (splitRev (data.getD 1 [])).1 (some MAX_SAFE_INTEGER) &&
             exclAllows excl (data.getD 0 [])) = true
         then [Effect.storageSet data socket] else ([] : List Effect)) ↔ _
    split
    next hb =>
      simp only [List.mem_singleton]
      exact iff_of_true trivial hb
    next hb =>
      constructor
      · intro hmem
        exact absurd hmem (List.not_mem_nil _)
      · intro hc
        exact absurd hc hb
  rw [key, Bool.and_eq_true, Bool.and_eq_true]
  constructor
  · rintro ⟨⟨h1, h2⟩, h3⟩
    rcases hstart : (splitRev (data.getD 1 [])).1 with _ | n
    · rw [hstart] at h1
      exact absurd h1 (by simp [jsGt])
    · rw [hstart] at h1 h2
      refine ⟨⟨n, rfl, ?_, ?_⟩, h3⟩
      · simpa [jsGt] using h1
      · simpa [jsLt] using h2
  · rintro ⟨⟨n, hn, hpos, hlt⟩, h3⟩
    refine ⟨⟨?_, ?_⟩, h3⟩
    · rw [hn]
      simpa [jsGt] using hpos
    · rw [hn]
      simpa [jsLt] using hlt

/-! ## Pinning: subscribed names are locked and never evicted -/

theorem removeLastUnpinned_keeps {locked : List Str} {name : Str}
    (hname : name ∈ locked) :
    ∀ {es es1 : List (Str × CacheEntry)}, removeLastUnpinned locked es = some es1 →
      name ∈ es.map Prod.fst → name ∈ es1.map Prod.fst := by
  intro es
  induction es with
  | nil =>
    intro es1 h
    simp [removeLastUnpinned] at h
  | cons e rest ih =>
    intro es1 h hmem
    unfold removeLastUnpinned at h
    rcases hr : removeLastUnpinned locked rest with _ | rest1
    · rw [hr] at h
      by_cases hel : e.1 ∈ locked
      · rw [if_pos hel] at h
        exact absurd h (by simp)
      · rw [if_neg hel] at h
        have hes : rest = es1 := Option.some_injective _ h
        subst hes
        simp only [List.map_cons, List.mem_cons] at hmem
        rcases hmem with h1 | h1
        · exact absurd (h1 ▸ hname) hel
        · exact h1
    · rw [hr] at h
      have hes : e :: rest1 = es1 := Option.some_injective _ h
      subst hes
      simp only [List.map_cons, List.mem_cons] at hmem ⊢
      rcases hmem with h1 | h1
      · exact Or.inl h1
      · exact Or.inr (ih hr h1)

theorem evictLoop_keeps {locked : List Str} {maxSize : Nat} {name : Str}
    (hname : name ∈ locked) :
    ∀ (fuel : Nat) (es : List (Str × CacheEntry)), name ∈ es.map Prod.fst →
      name ∈ (evictLoop locked maxSize fuel es).map Prod.fst
  | 0, es, h => h
  | fuel + 1, es, h => by
    unfold evictLoop
    by_cases hlen : es.length ≤ maxSize
    · rw [if_pos hlen]
      exact h
    · rw [if_neg hlen]
      rcases hr : removeLastUnpinned locked es with _ | es1
      · exact h
      · exact evictLoop_keeps hname fuel es1 (removeLastUnpinned_keeps hname hr h)

theorem cache_set_keeps {c : RecordCache} {name : Str} (hl : name ∈ c.locked)
    (hmem : name ∈ c.entries.map Prod.fst) (n2 v m : Str) :
    name ∈ (c.set n2 v m).entries.map Prod.fst := by
  show name ∈ (evictLoop c.locked c.max
      ((n2, CacheEntry.mk v m) :: aerase c.entries n2).length
      ((n2, CacheEntry.mk v m) :: aerase c.entries n2)).map Prod.fst
  refine evictLoop_keeps hl _ _ ?_
  simp only [List.map_cons, List.mem_cons]
  by_cases hn2 : name = n2
  · exact Or.inl hn2
  · right
    rw [keys_aerase]
    exact (List.mem_erase_of_ne hn2).mpr hmem

theorem handleRead_locked (excl : Option (Str → Bool)) (st : RHState) (name : Str)
    (socket : Nat) :
    (handleRead excl st name socket).1.cache.locked =
      (match (st.reg.subscribe name socket).2 with
        | SubResult.added 1 => st.cache.lock name
        | _ => st.cache).locked := by
  simp only [handleRead]
  rw [lockOrNot_get]
  split
  · split <;> rfl
  · split <;> rfl

theorem lockOrNot_locked_super (st : RHState) (name : Str) (socket : Nat) :
    ∀ m ∈ st.cache.locked,
      m ∈ (match (st.reg.subscribe name socket).2 with
        | SubResult.added 1 => st.cache.lock name
        | _ => st.cache).locked := by
  intro m hm
  rcases (st.reg.subscribe name socket).2 with n | _
  · rcases n with _ | n
    · exact hm
    · rcases n with _ | n
      · exact mem_sadd.mpr (Or.inl hm)
      · exact hm
  · exact hm

theorem send_mem_keys {r : Registry} {name msg : Str} {sender : Option Nat} :
    ∀ p ∈ (r.sendToSubscribers name msg sender).subscriptions,
      ∃ q ∈ r.subscriptions, q.1 = p.1 := by
  intro p hp
  by_cases hm : msg = []
  · rw [hm, send_empty] at hp
    exact ⟨p, hp, rfl⟩
  rcases h : alookup r.subscriptions name with _ | sub
  · rw [send_no_sub h] at hp
    exact ⟨p, hp, rfl⟩
  rw [send_some hm h] at hp
  replace hp : p ∈ aset r.subscriptions name (bufferFrame sub msg sender) := hp
  rcases mem_aset_weak hp with rfl | hpl
  · exact ⟨(name, sub), mem_of_alookup h, rfl⟩
  · exact ⟨p, hpl, rfl⟩

theorem set_locked (c : RecordCache) (n v m : Str) : (c.set n v m).locked = c.locked := rfl

theorem rhBroadcast_eq (st : RHState) (name version message : Str)
    (sender : Option Nat) :
    rhBroadcast st name version message sender =
      if isSameOrNewer ((st.cache.get name).map CacheEntry.version) (some version)
      then st
      else RHState.mk (st.cache.set name version message)
            (st.reg.sendToSubscribers name message sender) := rfl

theorem sysInv_broadcast {st : RHState} (hs : SysInv st)
    (name version message : Str) (sender : Option Nat) :
    SysInv (rhBroadcast st name version message sender) := by
  obtain ⟨inv, hcov⟩ := hs
  rw [rhBroadcast_eq]
  split
  · exact ⟨inv, hcov⟩
  · constructor
    · exact regInv_sendToSubscribers inv name message sender
    · intro p hp
      obtain ⟨q, hq, hk⟩ := send_mem_keys p hp
      show p.1 ∈ st.cache.locked
      exact hk ▸ hcov q hq

theorem subscribe_mem_keys {r : Registry} {name : Str} {socket : Nat} :
    ∀ p ∈ (r.subscribe name socket).1.subscriptions,
      p.1 = name ∨ p ∈ r.subscriptions := by
  intro p hp
  by_cases hmem : socket ∈ ((alookup r.subscriptions name).getD emptySub).sockets
  · rw [subscribe_of_mem hmem] at hp
    exact Or.inr hp
  · rw [subscribe_of_not_mem hmem] at hp
    replace hp : p ∈ aset r.subscriptions name
        { (alookup r.subscriptions name).getD emptySub with
            sockets := ((alookup r.subscriptions name).getD emptySub).sockets
              ++ [socket] } := hp
    rcases mem_aset_weak hp with rfl | hpl
    · exact Or.inl rfl
    · exact Or.inr hpl

theorem lockOrNot_locked_one {st : RHState} {name : Str} {socket : Nat}
    (h : (st.reg.subscribe name socket).2 = SubResult.added 1) :
    (match (st.reg.subscribe name socket).2 with
      | SubResult.added 1 => st.cache.lock name
      | _ => st.cache).locked = sadd st.cache.locked name := by
  rw [h]
  rfl

theorem lockOrNot_locked_ne {st : RHState} {name : Str} {socket : Nat}
    (h : (st.reg.subscribe name socket).2 ≠ SubResult.added 1) :
    (match (st.reg.subscribe name socket).2 with
      | SubResult.added 1 => st.cache.lock name
      | _ => st.cache).locked = st.cache.locked := by
  rcases hres : (st.reg.subscribe name socket).2 with n | _
  · rcases n with _ | n
    · rfl
    · rcases n with _ | n
      · exact absurd hres h
      · rfl
  · rfl

theorem sysInv_read (excl : Option (Str → Bool)) {st : RHState} (hs : SysInv st)
    (name : Str) (socket : Nat) : SysInv (handleRead excl st name socket).1 := by
  obtain ⟨inv, hcov⟩ := hs
  constructor
  · rw [handleRead_reg]
    exact regInv_subscribe inv name socket
  · intro p hp
    rw [handleRead_reg] at hp
    rw [handleRead_locked]
    by_cases hone : (st.reg.subscribe name socket).2 = SubResult.added 1
    · rw [lockOrNot_locked_one hone]
      rcases subscribe_mem_keys p hp with h1 | h1
      · rw [h1]
        exact mem_sadd_self _ _
      · exact mem_sadd.mpr (Or.inl (hcov p h1))
    · rw [lockOrNot_locked_ne hone]
      rcases subscribe_mem_keys p hp with h1 | h1
      · rcases hl : alookup st.reg.subscriptions name with _ | sub0
        · exfalso
          refine hone ?_
          have hmem : socket ∉
              ((alookup st.reg.subscriptions name).getD emptySub).sockets := by
            rw [hl]
            exact List.not_mem_nil socket
          rw [subscribe_of_not_mem hmem, hl]
          rfl
        · rw [h1]
          exact hcov _ (mem_of_alookup hl)
      · exact hcov p h1

theorem handleUnsubscribe_cache (st : RHState) (name : Str) (socket : Nat) :
    (handleUnsubscribe st name socket).cache =
      (match (st.reg.unsubscribe name socket).2 with
        | UnsubResult.removed 0 => st.cache.unlock name
        | _ => st.cache) := rfl

theorem unsubscribe_zero_subs {r : Registry} {name : Str} {socket : Nat}
    (h : (r.unsubscribe name socket).2 = UnsubResult.removed 0) :
    (r.unsubscribe name socket).1.subscriptions = aerase r.subscriptions name := by
  rcases hl : alookup r.subscriptions name with _ | sub
  · rw [unsubscribe_none socket hl] at h
    exact UnsubResult.noConfusion
      (h : UnsubResult.notSubscribed = UnsubResult.removed 0)
  by_cases h2 : socket ∈ sub.sockets
  swap
  · rw [unsubscribe_not_mem hl h2] at h
    exact UnsubResult.noConfusion
      (h : UnsubResult.notSubscribed = UnsubResult.removed 0)
  rw [unsubscribe_of_mem hl h2] at h ⊢
  replace h : UnsubResult.removed (sub.sockets.erase socket).length
      = UnsubResult.removed 0 := h
  injection h with hz
  have hnil : sub.sockets.erase socket = [] := List.length_eq_zero.mp hz
  show (if sub.sockets.erase socket = [] then aerase r.subscriptions name
        else aset r.subscriptions name
          { sub with sockets := sub.sockets.erase socket,
                     uniqueSenders := aerase sub.uniqueSenders socket })
      = aerase r.subscriptions name
  rw [if_pos hnil]

theorem unsubscribe_mem_keys {r : Registry} {name : Str} {socket : Nat} :
    ∀ p ∈ (r.unsubscribe name socket).1.subscriptions,
      p ∈ r.subscriptions
        ∨ ∃ sub, alookup r.subscriptions name = some sub ∧ p.1 = name := by
  intro p hp
  rcases hl : alookup r.subscriptions name with _ | sub
  · rw [unsubscribe_none socket hl] at hp
    exact Or.inl hp
  by_cases h2 : socket ∈ sub.sockets
  swap
  · rw [unsubscribe_not_mem hl h2] at hp
    exact Or.inl hp
  rw [unsubscribe_of_mem hl h2] at hp
  replace hp : p ∈ (if sub.sockets.erase socket = []
      then aerase r.subscriptions name
      else aset r.subscriptions name
        { sub with sockets := sub.sockets.erase socket,
                   uniqueSenders := aerase sub.uniqueSenders socket }) := hp
  by_cases hnil : sub.sockets.erase socket = []
  · rw [if_pos hnil] at hp
    exact Or.inl (mem_aerase_weak hp)
  · rw [if_neg hnil] at hp
    rcases mem_aset_weak hp with rfl | hpl
    · exact Or.inr ⟨sub, rfl, rfl⟩
    · exact Or.inl hpl

theorem handleUnsubscribe_locked_zero {st : RHState} {name : Str} {socket : Nat}
    (h : (st.reg.unsubscribe name socket).2 = UnsubResult.removed 0) :
    (handleUnsubscribe st name socket).cache.locked = st.cache.locked.erase name := by
  rw [handleUnsubscribe_cache, h]
  rfl

theorem handleUnsubscribe_locked_other {st : RHState} {name : Str} {socket : Nat}
    (h : (st.reg.unsubscribe name socket).2 ≠ UnsubResult.removed 0) :
    (handleUnsubscribe st name socket).cache.locked = st.cache.locked := by
  rw [handleUnsubscribe_cache]
  rcases hres : (st.reg.unsubscribe name socket).2 with k | _
  · rcases k with _ | k
    · exact absurd hres h
    · rfl
  · rfl

theorem handleUnsubscribe_entries (st : RHState) (name : Str) (socket : Nat) :
    (handleUnsubscribe st name socket).cache.entries = st.cache.entries := by
  rw [handleUnsubscribe_cache]
  rcases (st.reg.unsubscribe name socket).2 with k | _
  · rcases k with _ | k
    · rfl
    · rfl
  · rfl

theorem sysInv_unsubscribe {st : RHState} (hs : SysInv st) (name : Str)
    (socket : Nat) : SysInv (handleUnsubscribe st name socket) := by
  obtain ⟨inv, hcov⟩ := hs
  constructor
  · show RegInv (st.reg.unsubscribe name socket).1
    exact regInv_unsubscribe inv name socket
  · intro p hp
    replace hp : p ∈ (st.reg.unsubscribe name socket).1.subscriptions := hp
    by_cases hz : (st.reg.unsubscribe name socket).2 = UnsubResult.removed 0
    · rw [handleUnsubscribe_locked_zero hz]
      rw [unsubscribe_zero_subs hz] at hp
      obtain ⟨hpl, hpne⟩ := (mem_aerase_iff inv.subsKeysNodup).mp hp
      exact (List.mem_erase_of_ne hpne).mpr (hcov p hpl)
    · rw [handleUnsubscribe_locked_other hz]
      rcases unsubscribe_mem_keys p hp with h1 | ⟨sub, hsub, h1⟩
      · exact hcov p h1
      · rw [h1]
        exact hcov _ (mem_of_alookup hsub)

theorem sysInv_tick {st : RHState} (hs : SysInv st) :
    SysInv (RHState.mk st.cache st.reg.onBroadcastTimeout.1) := by
  obtain ⟨inv, hcov⟩ := hs
  constructor
  · exact regInv_onBroadcastTimeout inv
  · intro p hp
    replace hp : p ∈ st.reg.subscriptions.map fun q =>
        if q.1 ∈ st.reg.pending then (q.1, clearSub q.2) else q := hp
    rcases List.mem_map.mp hp with ⟨q, hq, rfl⟩
    by_cases hqp : q.1 ∈ st.reg.pending
    · rw [if_pos hqp]
      exact hcov q hq
    · rw [if_neg hqp]
      exact hcov q hq

theorem sysInv_rhStep (excl : Option (Str → Bool)) {st : RHState} (hs : SysInv st)
    (op : RHOp) : SysInv (rhStep excl st op) := by
  cases op with
  | read n s => exact sysInv_read excl hs n s
  | update s d =>
    show SysInv (handleUpdate excl st s d).1
    exact sysInv_broadcast hs _ _ _ _
  | unsubscribe n s => exact sysInv_unsubscribe hs n s
  | readResponse e rec =>
    show SysInv (onReadStorageResponse st e rec).1
    unfold onReadStorageResponse
    split
    · exact hs
    · exact sysInv_broadcast hs _ _ _ _
  | tick => exact sysInv_tick hs

theorem handleRead_keeps_entry (excl : Option (Str → Bool)) {st : RHState}
    {name : Str} (hl : name ∈ st.cache.locked)
    (hmem : name ∈ st.cache.entries.map Prod.fst) (n2 : Str) (socket : Nat) :
    name ∈ (handleRead excl st n2 socket).1.cache.entries.map Prod.fst := by
  simp only [handleRead]
  rw [lockOrNot_get]
  have hl2 : name ∈ (match (st.reg.subscribe n2 socket).2 with
      | SubResult.added 1 => st.cache.lock n2
      | _ => st.cache).locked := lockOrNot_locked_super st n2 socket name hl
  have hm2 : name ∈ (match (st.reg.subscribe n2 socket).2 with
      | SubResult.added 1 => st.cache.lock n2
      | _ => st.cache).entries.map Prod.fst := by
    rw [lockOrNot_entries]
    exact hmem
  split
  · split
    · exact hm2
    · exact hm2
  · split
    · exact cache_set_keeps hl2 hm2 n2 [] []
    · exact hm2

theorem broadcast_keeps_entry {st : RHState} {name : Str}
    (hl : name ∈ st.cache.locked) (hmem : name ∈ st.cache.entries.map Prod.fst)
    (n2 version message : Str) (sender : Option Nat) :
    name ∈ (rhBroadcast st n2 version message sender).cache.entries.map Prod.fst := by
  rw [rhBroadcast_eq]
  split
  · exact hmem
  · exact cache_set_keeps hl hmem n2 version message

theorem rhStep_keeps_entry (excl : Option (Str → Bool)) {st : RHState}
    (hs : SysInv st) (op : RHOp) {name : Str}
    (hsub : alookup st.reg.subscriptions name ≠ none)
    (hmem : name ∈ st.cache.entries.map Prod.fst) :
    name ∈ (rhStep excl st op).cache.entries.map Prod.fst := by
  obtain ⟨inv, hcov⟩ := hs
  have hl : name ∈ st.cache.locked := by
    rcases hq : alookup st.reg.subscriptions name with _ | sub
    · exact absurd hq hsub
    · exact hcov _ (mem_of_alookup hq)
  cases op with
  | read n s => exact handleRead_keeps_entry excl hl hmem n s
  | update s d =>
    show name ∈ (handleUpdate excl st s d).1.cache.entries.map Prod.fst
    exact broadcast_keeps_entry hl hmem _ _ _ _
  | unsubscribe n s =>
    show name ∈ (handleUnsubscribe st n s).cache.entries.map Prod.fst
    rw [handleUnsubscribe_entries]
    exact hmem
  | readResponse e rec =>
    show name ∈ (onReadStorageResponse st e rec).1.cache.entries.map Prod.fst
    unfold onReadStorageResponse
    split
    · exact hmem
    · exact broadcast_keeps_entry hl hmem _ _ _ _
  | tick => exact hmem

theorem handleRead_locked_one {excl : Option (Str → Bool)} {st : RHState}
    {name : Str} {socket : Nat}
    (h : (st.reg.subscribe name socket).2 = SubResult.added 1) :
    (handleRead excl st name socket).1.cache.locked = sadd st.cache.locked name := by
  rw [handleRead_locked]
  exact lockOrNot_locked_one h

theorem handleRead_locked_other {excl : Option (Str → Bool)} {st : RHState}
    {name : Str} {socket : Nat}
    (h : (st.reg.subscribe name socket).2 ≠ SubResult.added 1) :
    (handleRead excl st name socket).1.cache.locked = st.cache.locked := by
  rw [handleRead_locked]
  exact lockOrNot_locked_ne h

/-- C8: names with at least one local subscriber are pinned in the cache
(`SysInv`) and their cache entries survive every record-handler operation;
the pin is taken exactly when the subscription count rises to 1 (the READ
path locks on `added 1`) and released exactly when it falls to 0 (the
UNSUBSCRIBE path unlocks on `removed 0`). -/
theorem C8_subscriber_pinning (excl : Option (Str → Bool)) {st : RHState}
    (hs : SysInv st) :
    (∀ p ∈ st.reg.subscriptions, p.1 ∈ st.cache.locked) ∧
    (∀ op, SysInv (rhStep excl st op)) ∧
    (∀ op (name : Str), alookup st.reg.subscriptions name ≠ none →
      name ∈ st.cache.entries.map Prod.fst →
      name ∈ (rhStep excl st op).cache.entries.map Prod.fst) ∧
    (∀ (name : Str) (socket : Nat),
      (st.reg.subscribe name socket).2 = SubResult.added 1 →
      (handleRead excl st name socket).1.cache.locked = sadd st.cache.locked name) ∧
    (∀ (name : Str) (socket : Nat),
      (st.reg.subscribe name socket).2 ≠ SubResult.added 1 →
      (handleRead excl st name socket).1.cache.locked = st.cache.locked) ∧
    (∀ (name : Str) (socket : Nat),
      (st.reg.unsubscribe name socket).2 = UnsubResult.removed 0 →
      (handleUnsubscribe st name socket).cache.locked = st.cache.locked.erase name) ∧
    (∀ (name : Str) (socket : Nat),
      (st.reg.unsubscribe name socket).2 ≠ UnsubResult.removed 0 →
      (handleUnsubscribe st name socket).cache.locked = st.cache.locked) :=
  ⟨hs.2,
   fun op => sysInv_rhStep excl hs op,
   fun op name hsub hmem => rhStep_keeps_entry excl hs op hsub hmem,
   fun _ _ h => handleRead_locked_one h,
   fun _ _ h => handleRead_locked_other h,
   fun _ _ h => handleUnsubscribe_locked_zero h,
   fun _ _ h => handleUnsubscribe_locked_other h⟩

/-- Witness for C8 at a concrete one-subscriber state with the name pinned
and cached. -/
theorem C8_witness :
    (∀ p ∈ (RHState.mk
        (RecordCache.mk 8 [( [ 'a' ], CacheEntry.mk [ '1', '-', 'x' ] [ 'm' ] )] [ [ 'a' ] ])
        (Registry.mk [( [ 'a' ], Subscription.mk [] [] [7] )] [(7, [ [ 'a' ] ])] [] [7])).reg.subscriptions,
      p.1 ∈ (RHState.mk
        (RecordCache.mk 8 [( [ 'a' ], CacheEntry.mk [ '1', '-', 'x' ] [ 'm' ] )] [ [ 'a' ] ])
        (Registry.mk [( [ 'a' ], Subscription.mk [] [] [7] )] [(7, [ [ 'a' ] ])] [] [7])).cache.locked) ∧
    (∀ op, SysInv (rhStep none (RHState.mk
        (RecordCache.mk 8 [( [ 'a' ], CacheEntry.mk [ '1', '-', 'x' ] [ 'm' ] )] [ [ 'a' ] ])
        (Registry.mk [( [ 'a' ], Subscription.mk [] [] [7] )] [(7, [ [ 'a' ] ])] [] [7])) op)) ∧
    (∀ op (name : Str), alookup (RHState.mk
        (RecordCache.mk 8 [( [ 'a' ], CacheEntry.mk [ '1', '-', 'x' ] [ 'm' ] )] [ [ 'a' ] ])
        (Registry.mk [( [ 'a' ], Subscription.mk [] [] [7] )] [(7, [ [ 'a' ] ])] [] [7])).reg.subscriptions name ≠ none →
      name ∈ (RHState.mk
        (RecordCache.mk 8 [( [ 'a' ], CacheEntry.mk [ '1', '-', 'x' ] [ 'm' ] )] [ [ 'a' ] ])
        (Registry.mk [( [ 'a' ], Subscription.mk [] [] [7] )] [(7, [ [ 'a' ] ])] [] [7])).cache.entries.map Prod.fst →
      name ∈ (rhStep none (RHState.mk
        (RecordCache.mk 8 [( [ 'a' ], CacheEntry.mk [ '1', '-', 'x' ] [ 'm' ] )] [ [ 'a' ] ])
        (Registry.mk [( [ 'a' ], Subscription.mk [] [] [7] )] [(7, [ [ 'a' ] ])] [] [7])) op).cache.entries.map Prod.fst) ∧
    (∀ (name : Str) (socket : Nat),
      ((RHState.mk
        (RecordCache.mk 8 [( [ 'a' ], CacheEntry.mk [ '1', '-', 'x' ] [ 'm' ] )] [ [ 'a' ] ])
        (Registry.mk [( [ 'a' ], Subscription.mk [] [] [7] )] [(7, [ [ 'a' ] ])] [] [7])).reg.subscribe name socket).2 = SubResult.added 1 →
      (handleRead none (RHState.mk
        (RecordCache.mk 8 [( [ 'a' ], CacheEntry.mk [ '1', '-', 'x' ] [ 'm' ] )] [ [ 'a' ] ])
        (Registry.mk [( [ 'a' ], Subscription.mk [] [] [7] )] [(7, [ [ 'a' ] ])] [] [7])) name socket).1.cache.locked =
        sadd (RHState.mk
        (RecordCache.mk 8 [( [ 'a' ], CacheEntry.mk [ '1', '-', 'x' ] [ 'm' ] )] [ [ 'a' ] ])
        (Registry.mk [( [ 'a' ], Subscription.mk [] [] [7] )] [(7, [ [ 'a' ] ])] [] [7])).cache.locked name) ∧
    (∀ (name : Str) (socket : Nat),
      ((RHState.mk
        (RecordCache.mk 8 [( [ 'a' ], CacheEntry.mk [ '1', '-', 'x' ] [ 'm' ] )] [ [ 'a' ] ])
        (Registry.mk [( [ 'a' ], Subscription.mk [] [] [7] )] [(7, [ [ 'a' ] ])] [] [7])).reg.subscribe name socket).2 ≠ SubResult.added 1 →
      (handleRead none (RHState.mk
        (RecordCache.mk 8 [( [ 'a' ], CacheEntry.mk [ '1', '-', 'x' ] [ 'm' ] )] [ [ 'a' ] ])
        (Registry.mk [( [ 'a' ], Subscription.mk [] [] [7] )] [(7, [ [ 'a' ] ])] [] [7])) name socket).1.cache.locked =
        (RHState.mk
        (RecordCache.mk 8 [( [ 'a' ], CacheEntry.mk [ '1', '-', 'x' ] [ 'm' ] )] [ [ 'a' ] ])
        (Registry.mk [( [ 'a' ], Subscription.mk [] [] [7] )] [(7, [ [ 'a' ] ])] [] [7])).cache.locked) ∧
    (∀ (name : Str) (socket : Nat),
      ((RHState.mk
        (RecordCache.mk 8 [( [ 'a' ], CacheEntry.mk [ '1', '-', 'x' ] [ 'm' ] )] [ [ 'a' ] ])
        (Registry.mk [( [ 'a' ], Subscription.mk [] [] [7] )] [(7, [ [ 'a' ] ])] [] [7])).reg.unsubscribe name socket).2 = UnsubResult.removed 0 →
      (handleUnsubscribe (RHState.mk
        (RecordCache.mk 8 [( [ 'a' ], CacheEntry.mk [ '1', '-', 'x' ] [ 'm' ] )] [ [ 'a' ] ])
        (Registry.mk [( [ 'a' ], Subscription.mk [] [] [7] )] [(7, [ [ 'a' ] ])] [] [7])) name socket).cache.locked =
        (RHState.mk
        (RecordCache.mk 8 [( [ 'a' ], CacheEntry.mk [ '1', '-', 'x' ] [ 'm' ] )] [ [ 'a' ] ])
        (Registry.mk [( [ 'a' ], Subscription.mk [] [] [7] )] [(7, [ [ 'a' ] ])] [] [7])).cache.locked.erase name) ∧
    (∀ (name : Str) (socket : Nat),
      ((RHState.mk
        (RecordCache.mk 8 [( [ 'a' ], CacheEntry.mk [ '1', '-', 'x' ] [ 'm' ] )] [ [ 'a' ] ])
        (Registry.mk [( [ 'a' ], Subscription.mk [] [] [7] )] [(7, [ [ 'a' ] ])] [] [7])).reg.unsubscribe name socket).2 ≠ UnsubResult.removed 0 →
      (handleUnsubscribe (RHState.mk
        (RecordCache.mk 8 [( [ 'a' ], CacheEntry.mk [ '1', '-', 'x' ] [ 'm' ] )] [ [ 'a' ] ])
        (Registry.mk [( [ 'a' ], Subscription.mk [] [] [7] )] [(7, [ [ 'a' ] ])] [] [7])) name socket).cache.locked =
        (RHState.mk
        (RecordCache.mk 8 [( [ 'a' ], CacheEntry.mk [ '1', '-', 'x' ] [ 'm' ] )] [ [ 'a' ] ])
        (Registry.mk [( [ 'a' ], Subscription.mk [] [] [7] )] [(7, [ [ 'a' ] ])] [] [7])).cache.locked) :=
  C8_subscriber_pinning none
    ⟨RegInv.mk (by decide) (by decide) (by decide) (by decide) (by decide)
        (by decide) (by decide) (by decide) (by decide) (by decide) (by decide)
        (by decide) (by decide),
     by decide⟩

/-- Witness for C7 at a concrete in-range update. -/
theorem C7_witness :
    ((Effect.storageSet [ [ 'a' ], [ '3', '-', 'x' ], [ 'b' ] ] 7 ∈
        (handleUpdate none (RHState.mk (RecordCache.mk 8 [] []) emptyRegistry) 7
          [ [ 'a' ], [ '3', '-', 'x' ], [ 'b' ] ]).2) ↔
      ((∃ n : Int, (splitRev ([ [ 'a' ], [ '3', '-', 'x' ], [ 'b' ] ].getD 1 [])).1 = some n ∧
          0 < n ∧ n < MAX_SAFE_INTEGER) ∧
        exclAllows none ([ [ 'a' ], [ '3', '-', 'x' ], [ 'b' ] ].getD 0 []) = true)) ∧
    (onUpdateStorageResponse true [ [ 'a' ], [ '3', '-', 'x' ], [ 'b' ] ] 7 =
      [Effect.sendError 7 ErrEvent.RECORD_UPDATE_ERROR
        [ [ 'a' ], [ '3', '-', 'x' ], [ 'b' ] ]]) ∧
    (onUpdateStorageResponse false [ [ 'a' ], [ '3', '-', 'x' ], [ 'b' ] ] 7 = []) ∧
    ((handleUpdate none (RHState.mk (RecordCache.mk 8 [] []) emptyRegistry) 7
        [ [ 'a' ], [ '3', '-', 'x' ], [ 'b' ] ]).1 =
      rhBroadcast (RHState.mk (RecordCache.mk 8 [] []) emptyRegistry)
        ([ [ 'a' ], [ '3', '-', 'x' ], [ 'b' ] ].getD 0 [])
        ([ [ 'a' ], [ '3', '-', 'x' ], [ 'b' ] ].getD 1 [])
        (getMsg TOPIC_RECORD ACTION_UPDATE ([ [ 'a' ], [ '3', '-', 'x' ], [ 'b' ] ].take 3))
        (some 7)) :=
  C7_update_branch none (RHState.mk (RecordCache.mk 8 [] []) emptyRegistry) 7
    [ [ 'a' ], [ '3', '-', 'x' ], [ 'b' ] ]

/-! ## RPC claims -/

/-- C3: the response-timer expiry of an invocation in `AWAIT_RESPONSE`
sends `RESPONSE_TIMEOUT` referencing the original REQUEST to the
requestor and terminates the correlation id, and a RESPONSE arriving for
that id after the termination is answered to its sender with
`INVALID_RPC_CORRELATION_ID` rather than silently dropped (every entry
point is a total function, so no exception is possible). -/
theorem C3_rpc_response_after_timeout {h : RpcHandler} {cid : Nat}
    {rpc : RpcInvocation} (hnd : (h.rpcs.map Prod.fst).Nodup)
    (hl : alookup h.rpcs cid = some rpc)
    (hst : rpc.state = RpcState.awaitResponse) :
    rpcResponseTimeout h cid =
      (RpcHandler.mk (aerase h.rpcs cid),
       [RpcOut.errorFrame rpc.requestor rpc.request RpcErrCode.RESPONSE_TIMEOUT]) ∧
    alookup (rpcResponseTimeout h cid).1.rpcs cid = none ∧
    (∀ (socket : Nat) (m : RpcMsg), m.cid = cid →
      rpcResponse (rpcResponseTimeout h cid).1 socket m =
        ((rpcResponseTimeout h cid).1,
         [RpcOut.errorFrame socket m RpcErrCode.INVALID_RPC_CORRELATION_ID])) := by
  have he : rpcResponseTimeout h cid =
      (RpcHandler.mk (aerase h.rpcs cid),
       [RpcOut.errorFrame rpc.requestor rpc.request RpcErrCode.RESPONSE_TIMEOUT]) := by
    simp only [rpcResponseTimeout, hl, hst]
  have hnone : alookup (aerase h.rpcs cid) cid = none := alookup_aerase_self hnd
  refine ⟨he, ?_, ?_⟩
  · rw [he]
    exact hnone
  · intro socket m hm
    rw [he]
    show rpcResponse (RpcHandler.mk (aerase h.rpcs cid)) socket m = _
    have hn2 : alookup (aerase h.rpcs cid) m.cid = none := by
      rw [hm]
      exact hnone
    simp only [rpcResponse, hn2]

/-- Witness for C3: a one-invocation handler in `AWAIT_RESPONSE` at
correlation id 5; the timeout fires, then a late RESPONSE arrives. -/
theorem C3_witness :
    (rpcResponseTimeout (RpcHandler.mk [(5, RpcInvocation.mk 1 2
        (RpcMsg.mk RpcAction.request [ 'f' ] 5 []) RpcState.awaitResponse)]) 5 =
      (RpcHandler.mk (aerase [(5, RpcInvocation.mk 1 2
          (RpcMsg.mk RpcAction.request [ 'f' ] 5 []) RpcState.awaitResponse)] 5),
       [RpcOut.errorFrame 1 (RpcMsg.mk RpcAction.request [ 'f' ] 5 [])
          RpcErrCode.RESPONSE_TIMEOUT])) ∧
    alookup (rpcResponseTimeout (RpcHandler.mk [(5, RpcInvocation.mk 1 2
        (RpcMsg.mk RpcAction.request [ 'f' ] 5 [])
        RpcState.awaitResponse)]) 5).1.rpcs 5 = none ∧
    (∀ (socket : Nat) (m : RpcMsg), m.cid = 5 →
      rpcResponse (rpcResponseTimeout (RpcHandler.mk [(5, RpcInvocation.mk 1 2
          (RpcMsg.mk RpcAction.request [ 'f' ] 5 [])
          RpcState.awaitResponse)]) 5).1 socket m =
        ((rpcResponseTimeout (RpcHandler.mk [(5, RpcInvocation.mk 1 2
            (RpcMsg.mk RpcAction.request [ 'f' ] 5 [])
            RpcState.awaitResponse)]) 5).1,
         [RpcOut.errorFrame socket m RpcErrCode.INVALID_RPC_CORRELATION_ID])) :=
  @C3_rpc_response_after_timeout
    (RpcHandler.mk [(5, RpcInvocation.mk 1 2
      (RpcMsg.mk RpcAction.request [ 'f' ] 5 []) RpcState.awaitResponse)])
    5
    (RpcInvocation.mk 1 2 (RpcMsg.mk RpcAction.request [ 'f' ] 5 [])
      RpcState.awaitResponse)
    (by decide) (by decide) rfl

/-- C4: a second ACCEPT for a correlation id already in `AWAIT_RESPONSE`
leaves the handler unchanged and sends the accepter a `MULTIPLE_ACCEPT`
error referencing the original REQUEST together with a re-forwarded
REQUEST frame; every output of the step targets the accepter, so the
requestor receives no second ACCEPT. -/
theorem C4_second_accept {h : RpcHandler} {cid : Nat} {rpc : RpcInvocation}
    (hl : alookup h.rpcs cid = some rpc)
    (hst : rpc.state = RpcState.awaitResponse)
    (socket : Nat) (m : RpcMsg) (hm : m.cid = cid) :
    rpcAccept h socket m =
      (h, [RpcOut.errorFrame socket rpc.request RpcErrCode.MULTIPLE_ACCEPT,
           RpcOut.message socket rpc.request]) ∧
    ∀ out ∈ (rpcAccept h socket m).2, rpcOutTarget out = socket := by
  have he : rpcAccept h socket m =
      (h, [RpcOut.errorFrame socket rpc.request RpcErrCode.MULTIPLE_ACCEPT,
           RpcOut.message socket rpc.request]) := by
    simp only [rpcAccept, hm, hl, hst]
  refine ⟨he, ?_⟩
  intro out hout
  rw [he] at hout
  rcases List.mem_cons.mp hout with rfl | hout2
  · rfl
  · rcases List.mem_cons.mp hout2 with rfl | hout3
    · rfl
    · exact absurd hout3 (List.not_mem_nil out)

/-- Witness for C4: the invocation at correlation id 5 has already been
accepted; socket 9 sends a second ACCEPT. -/
theorem C4_witness :
    (rpcAccept (RpcHandler.mk [(5, RpcInvocation.mk 1 2
        (RpcMsg.mk RpcAction.request [ 'f' ] 5 []) RpcState.awaitResponse)]) 9
        (RpcMsg.mk RpcAction.accept [ 'f' ] 5 []) =
      (RpcHandler.mk [(5, RpcInvocation.mk 1 2
          (RpcMsg.mk RpcAction.request [ 'f' ] 5 []) RpcState.awaitResponse)],
       [RpcOut.errorFrame 9 (RpcMsg.mk RpcAction.request [ 'f' ] 5 [])
          RpcErrCode.MULTIPLE_ACCEPT,
        RpcOut.message 9 (RpcMsg.mk RpcAction.request [ 'f' ] 5 [])])) ∧
    ∀ out ∈ (rpcAccept (RpcHandler.mk [(5, RpcInvocation.mk 1 2
        (RpcMsg.mk RpcAction.request [ 'f' ] 5 []) RpcState.awaitResponse)]) 9
        (RpcMsg.mk RpcAction.accept [ 'f' ] 5 [])).2,
      rpcOutTarget out = 9 :=
  @C4_second_accept
    (RpcHandler.mk [(5, RpcInvocation.mk 1 2
      (RpcMsg.mk RpcAction.request [ 'f' ] 5 []) RpcState.awaitResponse)])
    5
    (RpcInvocation.mk 1 2 (RpcMsg.mk RpcAction.request [ 'f' ] 5 [])
      RpcState.awaitResponse)
    (by decide) rfl 9 (RpcMsg.mk RpcAction.accept [ 'f' ] 5 []) rfl

/-! ## Listener reject / re-offer (C5) -/

theorem matchList_id (ctx : LCtx) (name : Str) :
    ∀ m ∈ matchList ctx name, m.id = mkListenId m.uuid m.pattern := by
  intro m hm
  unfold matchList at hm
  rcases List.mem_flatMap.mp hm with ⟨up, hup, hm2⟩
  rcases List.mem_map.mp hm2 with ⟨p, hp2, rfl⟩
  rfl

theorem getD_mod_mem {α : Type} (xs : List α) (d : α) (k : Nat) (h : xs ≠ []) :
    xs.getD (k % xs.length) d ∈ xs := by
  have hlen : 0 < xs.length := List.length_pos.mpr h
  have hk : k % xs.length < xs.length := Nat.mod_lt k hlen
  rw [List.getD_eq_getElem?_getD, List.getElem?_eq_getElem hk, Option.getD_some]
  exact List.getElem_mem hk

theorem getD_mod_surj {α : Type} (xs : List α) (d : α) :
    ∀ m ∈ xs, ∃ j : Nat, xs.getD (j % xs.length) d = m := by
  intro m hm
  rcases List.mem_iff_getElem.mp hm with ⟨i, hi, rfl⟩
  exact ⟨i, by
    rw [Nat.mod_eq_of_lt hi, List.getD_eq_getElem?_getD,
      List.getElem?_eq_getElem hi, Option.getD_some]⟩

theorem tryAddUpsert_dead_nil (ctx : LCtx) (name : Str) (prev : LProvider)
    (now : Int) (k : Nat) (hist : List Str)
    (halive : lIsAlive ctx now prev = false)
    (hhist : prev.history.getD [] = hist)
    (hnil : lEligible ctx name hist = []) :
    tryAddUpsert ctx name prev now k =
      some (LProvider.mk none none none none (some hist)) := by
  unfold tryAddUpsert
  rw [if_neg (by simp [halive])]
  dsimp only
  rw [hhist]
  rw [if_pos hnil]

theorem tryAddUpsert_dead_pick (ctx : LCtx) (name : Str) (prev : LProvider)
    (now : Int) (k : Nat) (hist : List Str) (ms : List LMatch)
    (halive : lIsAlive ctx now prev = false)
    (hhist : prev.history.getD [] = hist)
    (hms : lEligible ctx name hist = ms)
    (hne : ms ≠ []) :
    tryAddUpsert ctx name prev now k =
      some (LProvider.mk (some (ms.getD (k % ms.length) (LMatch.mk [] [] [])).uuid)
        (some (ms.getD (k % ms.length) (LMatch.mk [] [] [])).pattern)
        (some ctx.serverName) (some (now + ctx.listenResponseTimeout))
        (some (hist ++ [(ms.getD (k % ms.length) (LMatch.mk [] [] [])).id]))) := by
  unfold tryAddUpsert
  rw [if_neg (by simp [halive])]
  dsimp only
  rw [hhist, hms]
  rw [if_neg hne]

/-- C5: a LISTEN_REJECT by the socket whose uuid and pattern are carried by
the current provider entry clears the provider while keeping history; the
cleared entry is not alive, so the next `tryAdd` pass runs; that pass
chooses only among matching listeners whose offer id is not in the history
(in particular never the rejecting (uuid, pattern) again, whose id the
history contains), every such candidate is reachable by some random index
(uniform support), and when no unhistoried match remains the entry is
stored with the bare history and no provider. -/
theorem C5_reject_then_reoffer (ctx : LCtx) (providers : List (Str × LProvider))
    (u pat name : Str) (now : Int) (k : Nat) (prev : LProvider)
    (hist : List Str) (ms : List LMatch)
    (hprev : (alookup providers name).getD emptyProvider = prev)
    (hu : prev.uuid = some u) (hp : prev.pattern = some pat)
    (hhist : prev.history.getD [] = hist)
    (hh : mkListenId u pat ∈ hist)
    (hms : lEligible ctx name hist = ms) :
    lReject providers u pat name =
      aset providers name (LProvider.mk none none none none prev.history) ∧
    lIsAlive ctx now (LProvider.mk none none none none prev.history) = false ∧
    (∀ m ∈ ms, m ∈ matchList ctx name ∧ m.id ∉ hist ∧
      ¬(m.uuid = u ∧ m.pattern = pat)) ∧
    (ms = [] →
      lTryAdd ctx (lReject providers u pat name) name now k =
        aset (lReject providers u pat name) name
          (LProvider.mk none none none none (some hist))) ∧
    (ms ≠ [] →
      ms.getD (k % ms.length) (LMatch.mk [] [] []) ∈ ms ∧
      lTryAdd ctx (lReject providers u pat name) name now k =
        aset (lReject providers u pat name) name
          (LProvider.mk (some (ms.getD (k % ms.length) (LMatch.mk [] [] [])).uuid)
            (some (ms.getD (k % ms.length) (LMatch.mk [] [] [])).pattern)
            (some ctx.serverName) (some (now + ctx.listenResponseTimeout))
            (some (hist ++ [(ms.getD (k % ms.length) (LMatch.mk [] [] [])).id])))) ∧
    (∀ m ∈ ms, ∃ j : Nat, ms.getD (j % ms.length) (LMatch.mk [] [] []) = m) := by
  have hrej : rejectUpsert u pat ((alookup providers name).getD emptyProvider)
      = some (LProvider.mk none none none none prev.history) := by
    rw [hprev]
    unfold rejectUpsert
    rw [if_pos ⟨hu, hp⟩]
  have c1 : lReject providers u pat name
      = aset providers name (LProvider.mk none none none none prev.history) := by
    unfold lReject
    rw [hrej]
  have halive : lIsAlive ctx now (LProvider.mk none none none none prev.history)
      = false := rfl
  have hlook : alookup (lReject providers u pat name) name
      = some (LProvider.mk none none none none prev.history) := by
    rw [c1]
    exact alookup_aset_self _ _ _
  refine ⟨c1, halive, ?_, ?_, ?_, ?_⟩
  · intro m hm
    subst hms
    obtain ⟨hmem, hpass⟩ := List.mem_filter.mp hm
    refine ⟨hmem, of_decide_eq_true hpass, ?_⟩
    rintro ⟨h1, h2⟩
    have hid := matchList_id ctx name m hmem
    rw [h1, h2] at hid
    refine of_decide_eq_true hpass ?_
    rw [hid]
    exact hh
  · intro hnil
    have hup := tryAddUpsert_dead_nil ctx name
      (LProvider.mk none none none none prev.history) now k hist halive hhist
      (by rw [hms]; exact hnil)
    unfold lTryAdd
    rw [hlook, Option.getD_some, hup]
  · intro hne
    refine ⟨getD_mod_mem ms (LMatch.mk [] [] []) k hne, ?_⟩
    have hup := tryAddUpsert_dead_pick ctx name
      (LProvider.mk none none none none prev.history) now k hist ms halive hhist
      hms hne
    unfold lTryAdd
    rw [hlook, Option.getD_some, hup]
  · exact getD_mod_surj ms (LMatch.mk [] [] [])

/-- Witness for C5: two listeners match the name, the rejecting one is
already in the history, so the re-offer goes to the other. -/
theorem C5_witness :
    (lReject [( [ 'a' ], LProvider.mk (some [ '1' ]) (some [ 'p' ]) (some [ 's' ])
        (some 99) (some [mkListenId [ '1' ] [ 'p' ]]) )] [ '1' ] [ 'p' ] [ 'a' ] =
      aset [( [ 'a' ], LProvider.mk (some [ '1' ]) (some [ 'p' ]) (some [ 's' ])
          (some 99) (some [mkListenId [ '1' ] [ 'p' ]]) )] [ 'a' ]
        (LProvider.mk none none none none (some [mkListenId [ '1' ] [ 'p' ]]))) ∧
    lIsAlive (LCtx.mk [ 's' ] [] [( [ '1' ], [ [ 'p' ] ] ), ( [ '2' ], [ [ 'p' ] ] )]
        (fun _ _ => true) 10) 0
      (LProvider.mk none none none none (some [mkListenId [ '1' ] [ 'p' ]])) = false ∧
    (∀ m ∈ [LMatch.mk (mkListenId [ '2' ] [ 'p' ]) [ '2' ] [ 'p' ]],
      m ∈ matchList (LCtx.mk [ 's' ] [] [( [ '1' ], [ [ 'p' ] ] ), ( [ '2' ], [ [ 'p' ] ] )]
          (fun _ _ => true) 10) [ 'a' ] ∧
      m.id ∉ [mkListenId [ '1' ] [ 'p' ]] ∧
      ¬(m.uuid = [ '1' ] ∧ m.pattern = [ 'p' ])) ∧
    ([LMatch.mk (mkListenId [ '2' ] [ 'p' ]) [ '2' ] [ 'p' ]] = [] →
      lTryAdd (LCtx.mk [ 's' ] [] [( [ '1' ], [ [ 'p' ] ] ), ( [ '2' ], [ [ 'p' ] ] )]
          (fun _ _ => true) 10)
        (lReject [( [ 'a' ], LProvider.mk (some [ '1' ]) (some [ 'p' ]) (some [ 's' ])
            (some 99) (some [mkListenId [ '1' ] [ 'p' ]]) )] [ '1' ] [ 'p' ] [ 'a' ])
        [ 'a' ] 0 0 =
      aset (lReject [( [ 'a' ], LProvider.mk (some [ '1' ]) (some [ 'p' ]) (some [ 's' ])
          (some 99) (some [mkListenId [ '1' ] [ 'p' ]]) )] [ '1' ] [ 'p' ] [ 'a' ])
        [ 'a' ] (LProvider.mk none none none none (some [mkListenId [ '1' ] [ 'p' ]]))) ∧
    ([LMatch.mk (mkListenId [ '2' ] [ 'p' ]) [ '2' ] [ 'p' ]] ≠ [] →
      LMatch.mk (mkListenId [ '2' ] [ 'p' ]) [ '2' ] [ 'p' ] ∈
        [LMatch.mk (mkListenId [ '2' ] [ 'p' ]) [ '2' ] [ 'p' ]] ∧
      lTryAdd (LCtx.mk [ 's' ] [] [( [ '1' ], [ [ 'p' ] ] ), ( [ '2' ], [ [ 'p' ] ] )]
          (fun _ _ => true) 10)
        (lReject [( [ 'a' ], LProvider.mk (some [ '1' ]) (some [ 'p' ]) (some [ 's' ])
            (some 99) (some [mkListenId [ '1' ] [ 'p' ]]) )] [ '1' ] [ 'p' ] [ 'a' ])
        [ 'a' ] 0 0 =
      aset (lReject [( [ 'a' ], LProvider.mk (some [ '1' ]) (some [ 'p' ]) (some [ 's' ])
          (some 99) (some [mkListenId [ '1' ] [ 'p' ]]) )] [ '1' ] [ 'p' ] [ 'a' ])
        [ 'a' ]
        (LProvider.mk (some [ '2' ]) (some [ 'p' ]) (some [ 's' ]) (some (0 + 10))
          (some ([mkListenId [ '1' ] [ 'p' ]] ++ [mkListenId [ '2' ] [ 'p' ]])))) ∧
    (∀ m ∈ [LMatch.mk (mkListenId [ '2' ] [ 'p' ]) [ '2' ] [ 'p' ]],
      ∃ j : Nat,
        [LMatch.mk (mkListenId [ '2' ] [ 'p' ]) [ '2' ] [ 'p' ]].getD
          (j % [LMatch.mk (mkListenId [ '2' ] [ 'p' ]) [ '2' ] [ 'p' ]].length)
          (LMatch.mk [] [] []) = m) :=
  C5_reject_then_reoffer
    (LCtx.mk [ 's' ] [] [( [ '1' ], [ [ 'p' ] ] ), ( [ '2' ], [ [ 'p' ] ] )]
      (fun _ _ => true) 10)
    [( [ 'a' ], LProvider.mk (some [ '1' ]) (some [ 'p' ]) (some [ 's' ]) (some 99)
      (some [mkListenId [ '1' ] [ 'p' ]]) )]
    [ '1' ] [ 'p' ] [ 'a' ] 0 0
    (LProvider.mk (some [ '1' ]) (some [ 'p' ]) (some [ 's' ]) (some 99)
      (some [mkListenId [ '1' ] [ 'p' ]]))
    [mkListenId [ '1' ] [ 'p' ]]
    [LMatch.mk (mkListenId [ '2' ] [ 'p' ]) [ '2' ] [ 'p' ]]
    (by decide) rfl rfl rfl (by decide) (by decide)

end Deepstream
